import Mathlib

/-!
# ToDo-Golang: the in-memory task store (`services.go`, `models.go`) and its handlers

A shallow embedding of `TaskService` and of its five operations, and the
properties of the store proved over it.

Modelling decisions, all taken from the source:

* `Task` is the struct of `models.go`, field for field.
* Go's `int` is a two's complement integer, 64 bits wide on the 64-bit
  platforms, whose arithmetic wraps around on overflow; values are carried as
  `Int` and the one arithmetic operation of the store, `ts.nextID++`, wraps
  through `wrapInt`.  An identifier passed by a caller is any `Int`.
* `time.Time` is an instant of a linearly ordered time line (`Int`).  Every
  call of `time.Now()` is an explicit argument of the operation that makes it,
  in the order in which the source evaluates the calls.
* `map[int]*Task` is an association list without repeated keys.  Every pointer
  stored in the map is allocated by `CreateTask` and stored under one key only,
  so the store itself is described by the values the pointers point to; the
  service with an explicit heap (`Mem.TaskService`) says what a caller sees
  through a returned pointer, and `mem_refines` relates the two.
* The operations run under the mutex of the service, hence one at a time; an
  operation is a function from the state before to the state after and the
  value returned.  Concurrent calls of `CreateTask` are interleaved statement
  by statement in `Sys`, with the mutex explicit.
* The handlers of `handlers.go` are functions from the state of the service
  and the request to the state after and the response; `encoding/json` is a
  parameter and `strconv.Atoi` is modelled after its documentation.
* The service of `test1/main.go` is embedded a second time, as `Test1`.
-/

namespace ToDo

/-- An instant returned by `time.Now()`. -/
abbrev Time := Int

/-- The struct `Task` of `models.go`. -/
structure Task where
  ID : Int
  Title : String
  Description : String
  Completed : Bool
  CreatedAt : Time
  UpdatedAt : Time
  deriving DecidableEq, Repr

deriving instance DecidableEq for Except

/-- The value of a 64-bit signed integer computation: the mathematical result
reduced into `[-2^63, 2^63)`. -/
def wrapInt (x : Int) : Int :=
  (x + 9223372036854775808) % 18446744073709551616 - 9223372036854775808

/-- The Go map read `v, ok := m[k]`. -/
def mapLookup : List (Int × Task) → Int → Option Task
  | [], _ => none
  | (k', v) :: m, k => if k' = k then some v else mapLookup m k

/-- The Go map assignment `m[k] = v`: the entry of `k` is replaced when there
is one and added otherwise. -/
def mapAssign : List (Int × Task) → Int → Task → List (Int × Task)
  | [], k, v => [(k, v)]
  | (k', v') :: m, k, v =>
    if k' = k then (k, v) :: m else (k', v') :: mapAssign m k v

/-- The Go builtin `delete(m, k)`. -/
def mapDelete : List (Int × Task) → Int → List (Int × Task)
  | [], _ => []
  | (k', v') :: m, k =>
    if k' = k then mapDelete m k else (k', v') :: mapDelete m k

/-- The keys of a map. -/
def mapKeys (m : List (Int × Task)) : List Int := m.map Prod.fst

/-- The struct `TaskService` of `services.go`: the map of the tasks and the
next identifier (the mutex has no state of its own between two calls). -/
structure TaskService where
  tasks : List (Int × Task)
  nextID : Int
  deriving DecidableEq, Repr

/-- The constructor `NewTaskService`: an empty map and `nextID: 1`. -/
def NewTaskService : TaskService :=
  { tasks := [], nextID := 1 }

/-- The verb `%d` of `fmt` for an `int`: decimal digits, with a minus sign
for a negative number. -/
def fmtInt (i : Int) : String :=
  if i < 0 then "-" ++ Nat.repr i.natAbs else Nat.repr i.natAbs

/-- The error of the three operations that look a task up:
`fmt.Errorf("задача с ID %d не найдена", id)`. -/
def notFound (id : Int) : String :=
  "задача с ID " ++ fmtInt id ++ " не найдена"

/-- The method `CreateTask`.  `now₁` and `now₂` are the two successive calls
of `time.Now()` in the struct literal, for `CreatedAt` and for `UpdatedAt`. -/
def CreateTask (ts : TaskService) (title description : String)
    (now₁ now₂ : Time) : TaskService × Task :=
  let task : Task :=
    { ID := ts.nextID
      Title := title
      Description := description
      Completed := false
      CreatedAt := now₁
      UpdatedAt := now₂ }
  ({ tasks := mapAssign ts.tasks ts.nextID task
     nextID := wrapInt (ts.nextID + 1) }, task)

/-- The method `GetTask`; it reads the store only. -/
def GetTask (ts : TaskService) (id : Int) : Except String Task :=
  match mapLookup ts.tasks id with
  | none => Except.error (notFound id)
  | some task => Except.ok task

/-- The method `GetAllTasks`.  Go leaves the order of a map iteration open;
the model lists the tasks in the order of the association list, and the
properties below do not depend on the order. -/
def GetAllTasks (ts : TaskService) : List Task :=
  ts.tasks.map Prod.snd

/-- The method `UpdateTask`.  `now` is its one call of `time.Now()`.  The
task is changed through the pointer held in the map, so the entry keeps its
key and its place. -/
def UpdateTask (ts : TaskService) (id : Int) (title description : String)
    (completed : Bool) (now : Time) : TaskService × Except String Task :=
  match mapLookup ts.tasks id with
  | none => (ts, Except.error (notFound id))
  | some task =>
    let task' : Task :=
      { task with
        Title := title
        Description := description
        Completed := completed
        UpdatedAt := now }
    ({ ts with tasks := mapAssign ts.tasks id task' }, Except.ok task')

/-- The method `DeleteTask`. -/
def DeleteTask (ts : TaskService) (id : Int) : TaskService × Except String Unit :=
  match mapLookup ts.tasks id with
  | none => (ts, Except.error (notFound id))
  | some _ => ({ ts with tasks := mapDelete ts.tasks id }, Except.ok ())

/-- A call of one of the five operations of the store, with its arguments
and the clock readings it makes. -/
inductive Op where
  | create (title description : String) (now₁ now₂ : Time)
  | get (id : Int)
  | list
  | update (id : Int) (title description : String) (completed : Bool) (now : Time)
  | delete (id : Int)
  deriving DecidableEq, Repr

/-- What a call returns. -/
inductive Ret where
  | created (task : Task)
  | got (r : Except String Task)
  | listed (tasks : List Task)
  | updated (r : Except String Task)
  | deleted (r : Except String Unit)

/-- One call on the store: the state after it and the value returned. -/
def step (ts : TaskService) : Op → TaskService × Ret
  | Op.create title description now₁ now₂ =>
    ((CreateTask ts title description now₁ now₂).1,
      Ret.created (CreateTask ts title description now₁ now₂).2)
  | Op.get id => (ts, Ret.got (GetTask ts id))
  | Op.list => (ts, Ret.listed (GetAllTasks ts))
  | Op.update id title description completed now =>
    ((UpdateTask ts id title description completed now).1,
      Ret.updated (UpdateTask ts id title description completed now).2)
  | Op.delete id => ((DeleteTask ts id).1, Ret.deleted (DeleteTask ts id).2)

/-- The state after a sequence of calls. -/
def runState (ts : TaskService) : List Op → TaskService
  | [] => ts
  | op :: ops => runState (step ts op).1 ops

/-- The values returned by a sequence of calls, in call order. -/
def runRets (ts : TaskService) : List Op → List Ret
  | [] => []
  | op :: ops => (step ts op).2 :: runRets (step ts op).1 ops

/-- The identifier of the task a call of `CreateTask` returned. -/
def Ret.createdID? : Ret → Option Int
  | Ret.created task => some task.ID
  | _ => none

/-- The identifiers returned by the calls of `CreateTask` of a sequence, in
call order. -/
def createdIDs (ts : TaskService) (ops : List Op) : List Int :=
  (runRets ts ops).filterMap Ret.createdID?

/-- Whether a call is a call of `CreateTask`. -/
def Op.isCreate : Op → Bool
  | Op.create _ _ _ _ => true
  | _ => false

/-- The number of calls of `CreateTask` in a sequence. -/
def numCreates (ops : List Op) : Nat :=
  ops.countP Op.isCreate

/-- Whether a returned value is an error. -/
def Ret.isError : Ret → Bool
  | Ret.got (Except.error _) => true
  | Ret.updated (Except.error _) => true
  | Ret.deleted (Except.error _) => true
  | _ => false

/-- The well-formedness of a store: no key occurs twice in the map, and the
task stored under a key carries that key as its `ID`. -/
def WF (ts : TaskService) : Prop :=
  (mapKeys ts.tasks).Nodup ∧ ∀ k task, (k, task) ∈ ts.tasks → task.ID = k

/-- The clock readings a call makes on the store `ts`, in the order in which
it makes them: two for `CreateTask`, one for an `UpdateTask` that finds its
task, none otherwise (a failed `UpdateTask` returns before `time.Now()`). -/
def stepReadings (ts : TaskService) : Op → List Time
  | Op.create _ _ now₁ now₂ => [now₁, now₂]
  | Op.update id _ _ _ now =>
    match mapLookup ts.tasks id with
    | none => []
    | some _ => [now]
  | _ => []

/-- The clock readings of a sequence of calls, in the order they are made. -/
def clockReadings (ts : TaskService) : List Op → List Time
  | [] => []
  | op :: ops => stepReadings ts op ++ clockReadings (step ts op).1 ops

/-- The identifier a call removes from the store `ts`: the argument of a
`DeleteTask` that finds its task. -/
def stepDeleted (ts : TaskService) : Op → List Int
  | Op.delete id =>
    match mapLookup ts.tasks id with
    | none => []
    | some _ => [id]
  | _ => []

/-- The identifiers removed by the successful calls of `DeleteTask` of a
sequence, in call order. -/
def deletedIDs (ts : TaskService) : List Op → List Int
  | [] => []
  | op :: ops => stepDeleted ts op ++ deletedIDs (step ts op).1 ops

/-- A sequence of `n` rounds, each a call of `CreateTask` followed by the
call of `DeleteTask` on the identifier a store whose counter stood at `start`
before the first round has just handed out. -/
def churn (start : Int) : Nat → List Op
  | 0 => []
  | n + 1 =>
    Op.create "" "" 0 0 :: Op.delete (wrapInt start) :: churn (start + 1) n

/-! ### The handlers (`handlers.go`) -/

/-- The struct `CreateTaskRequest` of `models.go`. -/
structure CreateTaskRequest where
  Title : String
  Description : String
  deriving DecidableEq, Repr

/-- The struct `UpdateTaskRequest` of `models.go`. -/
structure UpdateTaskRequest where
  Title : String
  Description : String
  Completed : Bool
  deriving DecidableEq, Repr

/-- An HTTP request as far as the handlers read it: the value of
`chi.URLParam(r, "id")`, which is the empty string when the route carries no
such parameter, and the body. -/
structure Request where
  idParam : String
  body : String
  deriving DecidableEq, Repr

/-- What a handler writes after the status line: the message of
`http.Error`, a JSON-encoded task, a JSON-encoded list of tasks, or
nothing. -/
inductive Body where
  | text (msg : String)
  | task (t : Task)
  | tasks (l : List Task)
  | empty
  deriving DecidableEq, Repr

/-- What a handler has written to its `http.ResponseWriter`. -/
structure Response where
  status : Nat
  body : Body
  deriving DecidableEq, Repr

/-- The constant `http.StatusOK`, the status of a response whose handler
writes a body without `WriteHeader`. -/
def StatusOK : Nat := 200

/-- The constant `http.StatusCreated`. -/
def StatusCreated : Nat := 201

/-- The constant `http.StatusNoContent`. -/
def StatusNoContent : Nat := 204

/-- The constant `http.StatusBadRequest`. -/
def StatusBadRequest : Nat := 400

/-- The constant `http.StatusNotFound`. -/
def StatusNotFound : Nat := 404

/-- The call `http.Error(w, msg, code)`. -/
def httpError (msg : String) (code : Nat) : Response :=
  { status := code, body := Body.text msg }

/-- The syntax of a decimal integer: an optional sign `+` or `-` followed by
one or more of the digits `0` to `9`. -/
def isDecimal (s : String) : Bool :=
  match s.toList with
  | '+' :: ds => !ds.isEmpty && ds.all Char.isDigit
  | '-' :: ds => !ds.isEmpty && ds.all Char.isDigit
  | ds => !ds.isEmpty && ds.all Char.isDigit

/-- The number a string of decimal digits writes. -/
def digitsValue (ds : List Char) : Nat :=
  ds.foldl (fun n c => 10 * n + (c.toNat - 48)) 0

/-- The function `strconv.Atoi` of the Go standard library, after its
documentation: the string is an optional sign followed by decimal digits, at
least one, and nothing else; the value has to fit the 64-bit `int`.  `none`
stands for a returned error. -/
def Atoi (s : String) : Option Int :=
  let ds : List Char :=
    match s.toList with
    | '+' :: r => r
    | '-' :: r => r
    | cs => cs
  if ds.isEmpty || !ds.all Char.isDigit then none
  else
    let v : Int :=
      if s.toList.head? = some '-' then -(digitsValue ds : Int) else (digitsValue ds : Int)
    if v < -9223372036854775808 ∨ 9223372036854775808 ≤ v then none else some v

/-- The handler `TaskHandler.CreateTask` (`POST /tasks`) on the service `ts`.
`decode` is `json.NewDecoder(r.Body).Decode` into a `CreateTaskRequest`, with
`none` for an error. -/
def TaskHandler.CreateTask (decode : String → Option CreateTaskRequest)
    (ts : TaskService) (r : Request) (now₁ now₂ : Time) : TaskService × Response :=
  match decode r.body with
  | none => (ts, httpError "Неверный JSON" StatusBadRequest)
  | some req =>
    if req.Title = "" then (ts, httpError "Поле 'title' обязательно" StatusBadRequest)
    else
      ((ToDo.CreateTask ts req.Title req.Description now₁ now₂).1,
        { status := StatusCreated
          body := Body.task (ToDo.CreateTask ts req.Title req.Description now₁ now₂).2 })

/-- The handler `TaskHandler.GetTasks` (`GET /tasks`). -/
def TaskHandler.GetTasks (ts : TaskService) : Response :=
  { status := StatusOK, body := Body.tasks (GetAllTasks ts) }

/-- The handler `TaskHandler.GetTask` (`GET /tasks/{id}`). -/
def TaskHandler.GetTask (ts : TaskService) (r : Request) : Response :=
  match Atoi r.idParam with
  | none => httpError "Неверный ID задачи" StatusBadRequest
  | some id =>
    match ToDo.GetTask ts id with
    | Except.error err => httpError err StatusNotFound
    | Except.ok task => { status := StatusOK, body := Body.task task }

/-- The handler `TaskHandler.UpdateTask` (`PUT /tasks/{id}`).  `decode` is
`json.NewDecoder(r.Body).Decode` into an `UpdateTaskRequest`. -/
def TaskHandler.UpdateTask (decode : String → Option UpdateTaskRequest)
    (ts : TaskService) (r : Request) (now : Time) : TaskService × Response :=
  match Atoi r.idParam with
  | none => (ts, httpError "Неверный ID задачи" StatusBadRequest)
  | some id =>
    match decode r.body with
    | none => (ts, httpError "Неверный JSON" StatusBadRequest)
    | some req =>
      if req.Title = "" then (ts, httpError "Поле 'title' обязательно" StatusBadRequest)
      else
        match (ToDo.UpdateTask ts id req.Title req.Description req.Completed now).2 with
        | Except.error err =>
          ((ToDo.UpdateTask ts id req.Title req.Description req.Completed now).1,
            httpError err StatusNotFound)
        | Except.ok task =>
          ((ToDo.UpdateTask ts id req.Title req.Description req.Completed now).1,
            { status := StatusOK, body := Body.task task })

/-- The handler `TaskHandler.DeleteTask` (`DELETE /tasks/{id}`). -/
def TaskHandler.DeleteTask (ts : TaskService) (r : Request) : TaskService × Response :=
  match Atoi r.idParam with
  | none => (ts, httpError "Неверный ID задачи" StatusBadRequest)
  | some id =>
    match (ToDo.DeleteTask ts id).2 with
    | Except.error err => ((ToDo.DeleteTask ts id).1, httpError err StatusNotFound)
    | Except.ok _ => ((ToDo.DeleteTask ts id).1, { status := StatusNoContent, body := Body.empty })

/-! ### The second service (`test1/main.go`) -/

/-- The struct `Task` of `test1/main.go`. -/
structure Test1.Task where
  ID : Int
  Title : String
  Description : String
  Completed : Bool
  CreatedAt : Time
  UpdatedAt : Time
  deriving DecidableEq, Repr

/-- The map read `v, ok := m[k]` on the map of `test1/main.go`. -/
def Test1.mapLookup : List (Int × Test1.Task) → Int → Option Test1.Task
  | [], _ => none
  | (k', v) :: m, k => if k' = k then some v else Test1.mapLookup m k

/-- The map assignment `m[k] = v` on the map of `test1/main.go`. -/
def Test1.mapAssign :
    List (Int × Test1.Task) → Int → Test1.Task → List (Int × Test1.Task)
  | [], k, v => [(k, v)]
  | (k', v') :: m, k, v =>
    if k' = k then (k, v) :: m else (k', v') :: Test1.mapAssign m k v

/-- The builtin `delete(m, k)` on the map of `test1/main.go`. -/
def Test1.mapDelete : List (Int × Test1.Task) → Int → List (Int × Test1.Task)
  | [], _ => []
  | (k', v') :: m, k =>
    if k' = k then Test1.mapDelete m k else (k', v') :: Test1.mapDelete m k

/-- The struct `TaskService` of `test1/main.go`. -/
structure Test1.TaskService where
  tasks : List (Int × Test1.Task)
  nextID : Int
  deriving DecidableEq, Repr

/-- The constructor `NewTaskService` of `test1/main.go`, which returns the
struct itself and not an interface. -/
def Test1.NewTaskService : Test1.TaskService :=
  { tasks := [], nextID := 1 }

/-- The method `CreateTask` of `test1/main.go`. -/
def Test1.CreateTask (ts : Test1.TaskService) (title description : String)
    (now₁ now₂ : Time) : Test1.TaskService × Test1.Task :=
  let task : Test1.Task :=
    { ID := ts.nextID
      Title := title
      Description := description
      Completed := false
      CreatedAt := now₁
      UpdatedAt := now₂ }
  ({ tasks := Test1.mapAssign ts.tasks ts.nextID task
     nextID := wrapInt (ts.nextID + 1) }, task)

/-- The method `GetTask` of `test1/main.go`. -/
def Test1.GetTask (ts : Test1.TaskService) (id : Int) : Except String Test1.Task :=
  match Test1.mapLookup ts.tasks id with
  | none => Except.error ("задача с ID " ++ fmtInt id ++ " не найдена")
  | some task => Except.ok task

/-- The method `GetAllTasks` of `test1/main.go`, in the order of the
association list. -/
def Test1.GetAllTasks (ts : Test1.TaskService) : List Test1.Task :=
  ts.tasks.map Prod.snd

/-- The method `UpdateTask` of `test1/main.go`. -/
def Test1.UpdateTask (ts : Test1.TaskService) (id : Int) (title description : String)
    (completed : Bool) (now : Time) : Test1.TaskService × Except String Test1.Task :=
  match Test1.mapLookup ts.tasks id with
  | none => (ts, Except.error ("задача с ID " ++ fmtInt id ++ " не найдена"))
  | some task =>
    let task' : Test1.Task :=
      { task with
        Title := title
        Description := description
        Completed := completed
        UpdatedAt := now }
    ({ ts with tasks := Test1.mapAssign ts.tasks id task' }, Except.ok task')

/-- The method `DeleteTask` of `test1/main.go`. -/
def Test1.DeleteTask (ts : Test1.TaskService) (id : Int) :
    Test1.TaskService × Except String Unit :=
  match Test1.mapLookup ts.tasks id with
  | none => (ts, Except.error ("задача с ID " ++ fmtInt id ++ " не найдена"))
  | some _ => ({ ts with tasks := Test1.mapDelete ts.tasks id }, Except.ok ())

/-- What a call on the service of `test1/main.go` returns. -/
inductive Test1.Ret where
  | created (task : Test1.Task)
  | got (r : Except String Test1.Task)
  | listed (tasks : List Test1.Task)
  | updated (r : Except String Test1.Task)
  | deleted (r : Except String Unit)

/-- One call on the service of `test1/main.go`. -/
def Test1.step (ts : Test1.TaskService) : Op → Test1.TaskService × Test1.Ret
  | Op.create title description now₁ now₂ =>
    ((Test1.CreateTask ts title description now₁ now₂).1,
      Test1.Ret.created (Test1.CreateTask ts title description now₁ now₂).2)
  | Op.get id => (ts, Test1.Ret.got (Test1.GetTask ts id))
  | Op.list => (ts, Test1.Ret.listed (Test1.GetAllTasks ts))
  | Op.update id title description completed now =>
    ((Test1.UpdateTask ts id title description completed now).1,
      Test1.Ret.updated (Test1.UpdateTask ts id title description completed now).2)
  | Op.delete id => ((Test1.DeleteTask ts id).1, Test1.Ret.deleted (Test1.DeleteTask ts id).2)

/-- The state of the service of `test1/main.go` after a sequence of calls. -/
def Test1.runState (ts : Test1.TaskService) : List Op → Test1.TaskService
  | [] => ts
  | op :: ops => Test1.runState (Test1.step ts op).1 ops

/-- The values the service of `test1/main.go` returns over a sequence of
calls. -/
def Test1.runRets (ts : Test1.TaskService) : List Op → List Test1.Ret
  | [] => []
  | op :: ops => (Test1.step ts op).2 :: Test1.runRets (Test1.step ts op).1 ops

/-- A task of `test1/main.go` read as a task of `models.go`, field by
field. -/
def Test1.Task.toMain (t : Test1.Task) : ToDo.Task :=
  { ID := t.ID
    Title := t.Title
    Description := t.Description
    Completed := t.Completed
    CreatedAt := t.CreatedAt
    UpdatedAt := t.UpdatedAt }

/-- A result over tasks of `test1/main.go` read over tasks of `models.go`;
the error keeps its message. -/
def Test1.resultToMain : Except String Test1.Task → Except String ToDo.Task
  | Except.error err => Except.error err
  | Except.ok task => Except.ok task.toMain

/-- A state of the service of `test1/main.go` read as a state of the service
of `services.go`. -/
def Test1.TaskService.toMain (ts : Test1.TaskService) : ToDo.TaskService :=
  { tasks := ts.tasks.map (fun p => (p.1, p.2.toMain)), nextID := ts.nextID }

/-- The returned values of the two services agree: the same task, field by
field; the same error with the same message; the same tasks in a list, in
whatever order each of the two lists them. -/
def RetEquiv : Test1.Ret → Ret → Prop
  | Test1.Ret.created t₁, Ret.created t => t₁.toMain = t
  | Test1.Ret.got r₁, Ret.got r => Test1.resultToMain r₁ = r
  | Test1.Ret.listed l₁, Ret.listed l => (l₁.map Test1.Task.toMain).Perm l
  | Test1.Ret.updated r₁, Ret.updated r => Test1.resultToMain r₁ = r
  | Test1.Ret.deleted r₁, Ret.deleted r => r₁ = r
  | _, _ => False

/-! ### The service with its pointers

The methods of the service return `*Task`, the address of the record the map
holds.  Here the heap is explicit: a task returned to a caller is an address,
and what the caller sees through it is what the heap holds at that address
at the time of reading. -/

/-- The address of a `Task` on the heap. -/
abbrev Addr := Nat

/-- The service with its heap: the cells of the tasks allocated so far (the
cell of address `a` is the `a`-th one), the map `map[int]*Task` from
identifiers to addresses, and the counter. -/
structure Mem.TaskService where
  heap : List Task
  tasks : List (Int × Addr)
  nextID : Int
  deriving DecidableEq, Repr

/-- The map read `v, ok := m[k]` on `map[int]*Task`. -/
def Mem.mapLookup : List (Int × Addr) → Int → Option Addr
  | [], _ => none
  | (k', a) :: m, k => if k' = k then some a else Mem.mapLookup m k

/-- The map assignment `m[k] = v` on `map[int]*Task`. -/
def Mem.mapAssign : List (Int × Addr) → Int → Addr → List (Int × Addr)
  | [], k, a => [(k, a)]
  | (k', a') :: m, k, a =>
    if k' = k then (k, a) :: m else (k', a') :: Mem.mapAssign m k a

/-- The builtin `delete(m, k)` on `map[int]*Task`. -/
def Mem.mapDelete : List (Int × Addr) → Int → List (Int × Addr)
  | [], _ => []
  | (k', a') :: m, k =>
    if k' = k then Mem.mapDelete m k else (k', a') :: Mem.mapDelete m k

/-- The task a pointer points to: what a caller reads through `task.Title`,
`task.UpdatedAt` and so on. -/
def Mem.load (ms : Mem.TaskService) (a : Addr) : Option Task :=
  ms.heap[a]?

/-- The heap after the cell of address `a` has been changed by `f`. -/
def Mem.modifyCell (f : Task → Task) : List Task → Addr → List Task
  | [], _ => []
  | task :: heap, 0 => f task :: heap
  | task :: heap, a + 1 => task :: Mem.modifyCell f heap a

/-- An assignment by a caller to fields of a task it holds the pointer `a`
of, such as `task.Title = "x"`. -/
def Mem.write (ms : Mem.TaskService) (a : Addr) (f : Task → Task) : Mem.TaskService :=
  { ms with heap := Mem.modifyCell f ms.heap a }

/-- The constructor `NewTaskService`, with an empty heap. -/
def Mem.NewTaskService : Mem.TaskService :=
  { heap := [], tasks := [], nextID := 1 }

/-- The method `CreateTask`: `&Task{...}` allocates a new cell, the map
keeps its address under `nextID`, and the address is returned. -/
def Mem.CreateTask (ms : Mem.TaskService) (title description : String)
    (now₁ now₂ : Time) : Mem.TaskService × Addr :=
  let task : Task :=
    { ID := ms.nextID
      Title := title
      Description := description
      Completed := false
      CreatedAt := now₁
      UpdatedAt := now₂ }
  ({ heap := ms.heap ++ [task]
     tasks := Mem.mapAssign ms.tasks ms.nextID ms.heap.length
     nextID := wrapInt (ms.nextID + 1) }, ms.heap.length)

/-- The method `GetTask`: it returns the pointer the map holds. -/
def Mem.GetTask (ms : Mem.TaskService) (id : Int) : Except String Addr :=
  match Mem.mapLookup ms.tasks id with
  | none => Except.error (notFound id)
  | some a => Except.ok a

/-- The method `GetAllTasks`: the pointers the map holds. -/
def Mem.GetAllTasks (ms : Mem.TaskService) : List Addr :=
  ms.tasks.map Prod.snd

/-- The method `UpdateTask`: the four assignments go through the pointer the
map holds, and that pointer is returned. -/
def Mem.UpdateTask (ms : Mem.TaskService) (id : Int) (title description : String)
    (completed : Bool) (now : Time) : Mem.TaskService × Except String Addr :=
  match Mem.mapLookup ms.tasks id with
  | none => (ms, Except.error (notFound id))
  | some a =>
    ({ ms with
       heap := Mem.modifyCell
         (fun task =>
           { task with
             Title := title
             Description := description
             Completed := completed
             UpdatedAt := now }) ms.heap a }, Except.ok a)

/-- The method `DeleteTask`: the entry leaves the map, the cell stays as it
is for whoever still holds its address. -/
def Mem.DeleteTask (ms : Mem.TaskService) (id : Int) :
    Mem.TaskService × Except String Unit :=
  match Mem.mapLookup ms.tasks id with
  | none => (ms, Except.error (notFound id))
  | some _ => ({ ms with tasks := Mem.mapDelete ms.tasks id }, Except.ok ())

/-- The map of the service read through the heap: every identifier with
the task its pointer points to. -/
def Mem.view (heap : List Task) (m : List (Int × Addr)) : List (Int × Task) :=
  m.filterMap (fun p => (heap[p.2]?).map (fun task => (p.1, task)))

/-- The service with its heap read as the service of values: the map of the
tasks pointed to, and the counter. -/
def Mem.TaskService.toValue (ms : Mem.TaskService) : ToDo.TaskService :=
  { tasks := Mem.view ms.heap ms.tasks, nextID := ms.nextID }

/-- The task behind a returned pointer, or the returned error. -/
def Mem.deref (ms : Mem.TaskService) : Except String Addr → Except String Task
  | Except.error err => Except.error err
  | Except.ok a =>
    match Mem.load ms a with
    | none => Except.error "nil"
    | some task => Except.ok task

/-- The pointers of the map are addresses of allocated cells, and no two
identifiers share a pointer. -/
def Mem.WF (ms : Mem.TaskService) : Prop :=
  (∀ p ∈ ms.tasks, p.2 < ms.heap.length) ∧ (ms.tasks.map Prod.snd).Nodup

/-! ### Concurrent calls of `CreateTask`

Goroutines that call `CreateTask` on the same service run interleaved, one
statement of the method at a time.  The mutex is the `sync.RWMutex` of the
service: `Lock` goes through when the mutex is free and takes it, and blocks
otherwise; the deferred `Unlock` releases it on return. -/

/-- The statement of `CreateTask` a goroutine executes next: `Lock()`, the
struct literal `task := &Task{...}`, the assignment `ts.tasks[ts.nextID] =
task`, the increment `ts.nextID++`, the return with its deferred `Unlock()`;
or the call has returned. -/
inductive Pc where
  | lock
  | build
  | assign
  | incr
  | unlock
  | done
  deriving DecidableEq, Repr

/-- A goroutine in a call of `CreateTask`: the two arguments, the two clock
readings its struct literal gets, the statement it executes next and its
local variable `task` once assigned. -/
structure Goroutine where
  title : String
  description : String
  now₁ : Time
  now₂ : Time
  pc : Pc
  task : Option Task
  deriving DecidableEq, Repr

/-- The service shared by the goroutines, the state of its mutex and the
goroutines. -/
structure Sys where
  store : TaskService
  locked : Bool
  gs : List Goroutine
  deriving DecidableEq, Repr

/-- The goroutine `i` executes its next statement; nothing changes when it
is blocked in `Lock()`, when its call has returned, or when there is no
goroutine `i`. -/
def Sys.step (s : Sys) (i : Nat) : Sys :=
  match s.gs[i]? with
  | none => s
  | some g =>
    match g.pc with
    | Pc.lock =>
      if s.locked then s
      else { s with locked := true, gs := s.gs.set i { g with pc := Pc.build } }
    | Pc.build =>
      { s with
        gs := s.gs.set i
          { g with
            pc := Pc.assign
            task := some
              { ID := s.store.nextID
                Title := g.title
                Description := g.description
                Completed := false
                CreatedAt := g.now₁
                UpdatedAt := g.now₂ } } }
    | Pc.assign =>
      match g.task with
      | none => s
      | some task =>
        { s with
          store := { s.store with tasks := mapAssign s.store.tasks s.store.nextID task }
          gs := s.gs.set i { g with pc := Pc.incr } }
    | Pc.incr =>
      { s with
        store := { s.store with nextID := wrapInt (s.store.nextID + 1) }
        gs := s.gs.set i { g with pc := Pc.unlock } }
    | Pc.unlock =>
      { s with locked := false, gs := s.gs.set i { g with pc := Pc.done } }
    | Pc.done => s

/-- An interleaving: the goroutines scheduled one after the other, each for
one statement. -/
def Sys.run (s : Sys) : List Nat → Sys
  | [] => s
  | i :: sched => Sys.run (s.step i) sched

/-- The arguments of a call of `CreateTask` and the clock readings it will
get. -/
structure CreateCall where
  title : String
  description : String
  now₁ : Time
  now₂ : Time
  deriving DecidableEq, Repr

/-- The calls issued concurrently on the store of `NewTaskService`: every
goroutine is about to call `Lock()` and the mutex is free. -/
def Sys.init (calls : List CreateCall) : Sys :=
  { store := NewTaskService
    locked := false
    gs := calls.map (fun c =>
      { title := c.title, description := c.description, now₁ := c.now₁, now₂ := c.now₂,
        pc := Pc.lock, task := none }) }

/-- Every call has returned. -/
def Sys.allDone (s : Sys) : Prop :=
  ∀ g ∈ s.gs, g.pc = Pc.done

/-- The number of goroutines whose next statement satisfies `w`, as a sum of
weights. -/
def pcCount (w : Pc → Nat) (gs : List Goroutine) : Nat :=
  (gs.map (fun g => w g.pc)).sum

/-- Weight 1 for a goroutine that holds the mutex. -/
def wInside : Pc → Nat
  | Pc.build => 1
  | Pc.assign => 1
  | Pc.incr => 1
  | Pc.unlock => 1
  | _ => 0

/-- Weight 1 for a goroutine about to execute the map assignment. -/
def wAssign : Pc → Nat
  | Pc.assign => 1
  | _ => 0

/-- Weight 1 for a goroutine about to execute the increment. -/
def wIncr : Pc → Nat
  | Pc.incr => 1
  | _ => 0

/-- Weight 1 for a goroutine that has executed its map assignment. -/
def wAssigned : Pc → Nat
  | Pc.incr => 1
  | Pc.unlock => 1
  | Pc.done => 1
  | _ => 0

/-- Weight 1 for a goroutine that has executed its increment. -/
def wIncremented : Pc → Nat
  | Pc.unlock => 1
  | Pc.done => 1
  | _ => 0

/-- The number of statements a goroutine has still to execute. -/
def wLeft : Pc → Nat
  | Pc.lock => 5
  | Pc.build => 4
  | Pc.assign => 3
  | Pc.incr => 2
  | Pc.unlock => 1
  | Pc.done => 0

/-- The invariant of the interleavings: the mutex is held exactly when one
goroutine is inside; the keys of the map are `1, ..., c` for the `c`
goroutines past their map assignment; `nextID` is one more than the number of
goroutines past their increment; the task a goroutine is about to store
carries `nextID`; every stored task carries its key. -/
def Sys.Inv (s : Sys) : Prop :=
  pcCount wInside s.gs = (if s.locked then 1 else 0) ∧
    mapKeys s.store.tasks
      = (List.range (pcCount wAssigned s.gs)).map (fun i : Nat => (i : Int) + 1) ∧
    s.store.nextID = (pcCount wIncremented s.gs : Int) + 1 ∧
    (∀ g ∈ s.gs, g.pc = Pc.assign → ∃ task, g.task = some task ∧ task.ID = s.store.nextID) ∧
    (∀ k task, (k, task) ∈ s.store.tasks → task.ID = k)

instance (s : Sys) : Decidable s.allDone := by
  unfold Sys.allDone
  infer_instance

/-- Ten calls of `CreateTask`, as in the concurrency test of the
repository. -/
def tenCalls : List CreateCall :=
  (List.range 10).map (fun i => { title := "Задача", description := "Описание",
                                  now₁ := (i : Int), now₂ := (i : Int) + 1 })

/-- An interleaving of the ten calls in which goroutines keep trying `Lock()`
while another one holds the mutex. -/
def tenCallsSchedule : List Nat :=
  [0, 1, 0, 0, 3, 0, 0, 1, 2, 1, 1, 4, 1, 1, 2, 3, 2, 2, 5, 2, 2, 3, 4, 3, 3, 6, 3,
    3, 4, 5, 4, 4, 7, 4, 4, 5, 6, 5, 5, 8, 5, 5, 6, 7, 6, 6, 9, 6, 6, 7, 8, 7, 7, 0,
    7, 7, 8, 9, 8, 8, 1, 8, 8, 9, 0, 9, 9, 2, 9, 9]

/-! ## The 64-bit counter -/

theorem wrapInt_of_inRange (x : Int) (h₁ : -9223372036854775808 ≤ x)
    (h₂ : x < 9223372036854775808) : wrapInt x = x := by
  unfold wrapInt; omega

theorem wrapInt_idem (x : Int) : wrapInt (wrapInt x) = wrapInt x := by
  unfold wrapInt; omega

theorem wrapInt_add_left (x y : Int) : wrapInt (wrapInt x + y) = wrapInt (x + y) := by
  unfold wrapInt; omega

/-! ## The map -/

theorem mapLookup_mapAssign_self (m : List (Int × Task)) (k : Int) (v : Task) :
    mapLookup (mapAssign m k v) k = some v := by
  induction m with
  | nil => simp [mapAssign, mapLookup]
  | cons p m ih =>
    obtain ⟨k', v'⟩ := p
    by_cases h : k' = k
    · simp [mapAssign, mapLookup, h]
    · simp [mapAssign, mapLookup, h, ih]

theorem mapLookup_mapAssign_ne (m : List (Int × Task)) (k j : Int) (v : Task)
    (hj : j ≠ k) : mapLookup (mapAssign m k v) j = mapLookup m j := by
  induction m with
  | nil =>
    have : ¬ k = j := fun h => hj h.symm
    simp [mapAssign, mapLookup, this]
  | cons p m ih =>
    obtain ⟨k', v'⟩ := p
    by_cases h : k' = k
    · subst h
      have : ¬ k' = j := fun h => hj h.symm
      simp [mapAssign, mapLookup, this]
    · by_cases h' : k' = j
      · subst h'
        simp [mapAssign, mapLookup, h]
      · simp [mapAssign, mapLookup, h, h', ih]

theorem mapLookup_mapDelete_self (m : List (Int × Task)) (k : Int) :
    mapLookup (mapDelete m k) k = none := by
  induction m with
  | nil => simp [mapDelete, mapLookup]
  | cons p m ih =>
    obtain ⟨k', v'⟩ := p
    by_cases h : k' = k
    · simp [mapDelete, h, ih]
    · simp [mapDelete, mapLookup, h, ih]

theorem mapLookup_mapDelete_ne (m : List (Int × Task)) (k j : Int) (hj : j ≠ k) :
    mapLookup (mapDelete m k) j = mapLookup m j := by
  induction m with
  | nil => simp [mapDelete, mapLookup]
  | cons p m ih =>
    obtain ⟨k', v'⟩ := p
    by_cases h : k' = k
    · subst h
      have : ¬ k' = j := fun h => hj h.symm
      simp [mapDelete, mapLookup, this, ih]
    · by_cases h' : k' = j
      · subst h'
        simp [mapDelete, mapLookup, h]
      · simp [mapDelete, mapLookup, h, h', ih]

theorem mapLookup_eq_none_iff (m : List (Int × Task)) (k : Int) :
    mapLookup m k = none ↔ k ∉ mapKeys m := by
  induction m with
  | nil => simp [mapLookup, mapKeys]
  | cons p m ih =>
    obtain ⟨k', v'⟩ := p
    by_cases h : k' = k
    · simp [mapLookup, mapKeys, h]
    · have h' : ¬ k = k' := fun e => h e.symm
      simp only [mapKeys] at ih
      simp [mapLookup, mapKeys, h, h', ih]

theorem mapLookup_mem (m : List (Int × Task)) (k : Int) (v : Task)
    (h : mapLookup m k = some v) : (k, v) ∈ m := by
  induction m with
  | nil => simp [mapLookup] at h
  | cons p m ih =>
    obtain ⟨k', v'⟩ := p
    by_cases hk : k' = k
    · simp [mapLookup, hk] at h
      simp [hk, h]
    · simp [mapLookup, hk] at h
      exact List.mem_cons_of_mem _ (ih h)

theorem mem_mapKeys_of_mem {m : List (Int × Task)} {k : Int} {v : Task}
    (h : (k, v) ∈ m) : k ∈ mapKeys m :=
  List.mem_map.mpr ⟨(k, v), h, rfl⟩

theorem mapKeys_mapAssign_of_mem (m : List (Int × Task)) (k : Int) (v : Task)
    (h : k ∈ mapKeys m) : mapKeys (mapAssign m k v) = mapKeys m := by
  induction m with
  | nil => simp [mapKeys] at h
  | cons p m ih =>
    obtain ⟨k', v'⟩ := p
    by_cases hk : k' = k
    · simp [mapAssign, mapKeys, hk]
    · have hm : k ∈ mapKeys m := by
        simp only [mapKeys, List.map_cons, List.mem_cons] at h
        rcases h with h | h
        · exact absurd h.symm hk
        · exact h
      have := ih hm
      simp only [mapKeys] at this
      simp [mapAssign, mapKeys, hk, this]

theorem mapKeys_mapAssign_of_not_mem (m : List (Int × Task)) (k : Int) (v : Task)
    (h : k ∉ mapKeys m) : mapKeys (mapAssign m k v) = mapKeys m ++ [k] := by
  induction m with
  | nil => simp [mapAssign, mapKeys]
  | cons p m ih =>
    obtain ⟨k', v'⟩ := p
    simp only [mapKeys, List.map_cons, List.mem_cons, not_or] at h
    have hk : ¬ k' = k := fun e => h.1 e.symm
    have := ih h.2
    simp only [mapKeys] at this
    simp [mapAssign, mapKeys, hk, this]

theorem mem_mapAssign {m : List (Int × Task)} {k : Int} {v : Task} {p : Int × Task}
    (h : p ∈ mapAssign m k v) : p = (k, v) ∨ p ∈ m := by
  induction m with
  | nil => simpa [mapAssign] using h
  | cons q m ih =>
    obtain ⟨k', v'⟩ := q
    by_cases hk : k' = k
    · simp only [mapAssign, hk, if_true, List.mem_cons] at h
      rcases h with h | h
      · exact Or.inl h
      · exact Or.inr (List.mem_cons_of_mem _ h)
    · simp only [mapAssign, hk, if_false, List.mem_cons] at h
      rcases h with h | h
      · exact Or.inr (by simp [h])
      · rcases ih h with h | h
        · exact Or.inl h
        · exact Or.inr (List.mem_cons_of_mem _ h)

theorem mem_mapDelete {m : List (Int × Task)} {k : Int} {p : Int × Task}
    (h : p ∈ mapDelete m k) : p ∈ m ∧ p.1 ≠ k := by
  induction m with
  | nil => simp [mapDelete] at h
  | cons q m ih =>
    obtain ⟨k', v'⟩ := q
    by_cases hk : k' = k
    · simp only [mapDelete, hk, if_true] at h
      exact ⟨List.mem_cons_of_mem _ (ih h).1, (ih h).2⟩
    · simp only [mapDelete, hk, if_false, List.mem_cons] at h
      rcases h with h | h
      · subst h
        exact ⟨by simp, hk⟩
      · exact ⟨List.mem_cons_of_mem _ (ih h).1, (ih h).2⟩

theorem mem_mapKeys_mapDelete (m : List (Int × Task)) (k j : Int) :
    j ∈ mapKeys (mapDelete m k) ↔ j ∈ mapKeys m ∧ j ≠ k := by
  by_cases hj : j = k
  · subst hj
    have := (mapLookup_eq_none_iff (mapDelete m j) j).mp (mapLookup_mapDelete_self m j)
    simp [this]
  · have h₁ := mapLookup_eq_none_iff (mapDelete m k) j
    have h₂ := mapLookup_eq_none_iff m j
    rw [mapLookup_mapDelete_ne m k j hj] at h₁
    have : j ∈ mapKeys (mapDelete m k) ↔ j ∈ mapKeys m := by
      rw [← not_iff_not, ← h₁, h₂]
    simp [this, hj]

theorem mapDelete_of_not_mem (m : List (Int × Task)) (k : Int) (h : k ∉ mapKeys m) :
    mapDelete m k = m := by
  induction m with
  | nil => rfl
  | cons p m ih =>
    obtain ⟨k', v'⟩ := p
    simp only [mapKeys, List.map_cons, List.mem_cons, not_or] at h
    have hk : ¬ k' = k := fun e => h.1 e.symm
    have := ih h.2
    simp [mapDelete, hk, this]

theorem nodup_mapKeys_mapDelete (m : List (Int × Task)) (k : Int)
    (h : (mapKeys m).Nodup) : (mapKeys (mapDelete m k)).Nodup := by
  induction m with
  | nil => simp [mapDelete, mapKeys]
  | cons p m ih =>
    obtain ⟨k', v'⟩ := p
    have h' : k' ∉ mapKeys m ∧ (mapKeys m).Nodup := by
      simpa [mapKeys] using h
    by_cases hk : k' = k
    · simp only [mapDelete, hk, if_true]
      exact ih h'.2
    · simp only [mapDelete, hk, if_false]
      have hn : k' ∉ mapKeys (mapDelete m k) := fun hm =>
        h'.1 ((mem_mapKeys_mapDelete m k k').mp hm).1
      have := ih h'.2
      simp only [mapKeys, List.map_cons, List.nodup_cons]
      exact ⟨hn, this⟩

theorem length_mapDelete (m : List (Int × Task)) (k : Int) (h : (mapKeys m).Nodup)
    (hk : k ∈ mapKeys m) : (mapDelete m k).length + 1 = m.length := by
  induction m with
  | nil => simp [mapKeys] at hk
  | cons p m ih =>
    obtain ⟨k', v'⟩ := p
    have h' : k' ∉ mapKeys m ∧ (mapKeys m).Nodup := by
      simpa [mapKeys] using h
    by_cases hkk : k' = k
    · subst hkk
      simp [mapDelete, mapDelete_of_not_mem m k' h'.1]
    · have hm : k ∈ mapKeys m := by
        simp only [mapKeys, List.map_cons, List.mem_cons] at hk
        rcases hk with hk | hk
        · exact absurd hk.symm hkk
        · exact hk
      simp only [mapDelete, hkk, if_false, List.length_cons]
      rw [ih h'.2 hm]

theorem nodup_mapKeys_mapAssign (m : List (Int × Task)) (k : Int) (v : Task)
    (h : (mapKeys m).Nodup) : (mapKeys (mapAssign m k v)).Nodup := by
  by_cases hk : k ∈ mapKeys m
  · rw [mapKeys_mapAssign_of_mem m k v hk]
    exact h
  · rw [mapKeys_mapAssign_of_not_mem m k v hk]
    refine List.Nodup.append h (List.nodup_singleton k) ?_
    intro a ha hb
    rw [List.mem_singleton] at hb
    exact hk (hb ▸ ha)

/-! ## Sequences of calls -/

theorem runState_append (ts : TaskService) (ops₁ ops₂ : List Op) :
    runState ts (ops₁ ++ ops₂) = runState (runState ts ops₁) ops₂ := by
  induction ops₁ generalizing ts with
  | nil => rfl
  | cons op ops ih => simp [runState, ih]

theorem runRets_append (ts : TaskService) (ops₁ ops₂ : List Op) :
    runRets ts (ops₁ ++ ops₂) = runRets ts ops₁ ++ runRets (runState ts ops₁) ops₂ := by
  induction ops₁ generalizing ts with
  | nil => rfl
  | cons op ops ih => simp [runState, runRets, ih]

theorem step_nextID (ts : TaskService) (op : Op) :
    (step ts op).1.nextID =
      if op.isCreate then wrapInt (ts.nextID + 1) else ts.nextID := by
  cases op with
  | create t d n₁ n₂ => simp [step, CreateTask, Op.isCreate]
  | get id => simp [step, Op.isCreate]
  | list => simp [step, Op.isCreate]
  | update id t d c n =>
    simp only [step, UpdateTask, Op.isCreate]
    cases mapLookup ts.tasks id <;> simp
  | delete id =>
    simp only [step, DeleteTask, Op.isCreate]
    cases mapLookup ts.tasks id <;> simp

theorem numCreates_cons (op : Op) (ops : List Op) :
    numCreates (op :: ops) = numCreates ops + (if op.isCreate then 1 else 0) := by
  simp [numCreates, List.countP_cons]

theorem numCreates_append (ops₁ ops₂ : List Op) :
    numCreates (ops₁ ++ ops₂) = numCreates ops₁ + numCreates ops₂ := by
  simp [numCreates, List.countP_append]

theorem numCreates_churn (start : Int) (n : Nat) : numCreates (churn start n) = n := by
  induction n generalizing start with
  | zero => simp [churn, numCreates]
  | succ n ih =>
    simp only [churn, numCreates_cons, ih, Op.isCreate]
    simp

/-- The counter after a sequence of calls: it has advanced, modulo `2^64`,
by the number of calls of `CreateTask`. -/
theorem runState_nextID (ts : TaskService) (ops : List Op)
    (h : wrapInt ts.nextID = ts.nextID) :
    (runState ts ops).nextID = wrapInt (ts.nextID + numCreates ops) := by
  induction ops generalizing ts with
  | nil => simp [runState, numCreates, h]
  | cons op ops ih =>
    have hs := step_nextID ts op
    by_cases hc : op.isCreate = true
    · simp only [hc, if_true] at hs
      have h' : wrapInt (step ts op).1.nextID = (step ts op).1.nextID := by
        rw [hs, wrapInt_idem]
      rw [runState, ih _ h', hs, wrapInt_add_left, numCreates_cons]
      simp only [hc, if_true]
      congr 1
      push_cast
      ring
    · simp only [hc, Bool.false_eq_true, if_false] at hs
      have h' : wrapInt (step ts op).1.nextID = (step ts op).1.nextID := by
        rw [hs, h]
      rw [runState, ih _ h', hs, numCreates_cons]
      simp [hc]

/-- The identifiers handed out by a sequence of calls: the counter values
`nextID, nextID + 1, ...` modulo `2^64`, one for each call of `CreateTask`. -/
theorem createdIDs_eq (ts : TaskService) (ops : List Op)
    (h : wrapInt ts.nextID = ts.nextID) :
    createdIDs ts ops =
      (List.range (numCreates ops)).map (fun i : Nat => wrapInt (ts.nextID + i)) := by
  induction ops generalizing ts with
  | nil => simp [createdIDs, runRets, numCreates]
  | cons op ops ih =>
    have hs := step_nextID ts op
    have hcons : createdIDs ts (op :: ops) =
        (match (step ts op).2.createdID? with
          | some i => [i]
          | none => []) ++ createdIDs (step ts op).1 ops := by
      simp only [createdIDs, runRets, List.filterMap_cons]
      cases (step ts op).2.createdID? <;> simp
    rw [hcons]
    cases op with
    | create t d n₁ n₂ =>
      simp only [Op.isCreate, if_true] at hs
      have h' : wrapInt (step ts (Op.create t d n₁ n₂)).1.nextID =
          (step ts (Op.create t d n₁ n₂)).1.nextID := by
        rw [hs, wrapInt_idem]
      rw [ih _ h', hs, numCreates_cons]
      simp only [Op.isCreate, if_true, step, CreateTask, Ret.createdID?]
      rw [List.range_succ_eq_map]
      simp only [List.map_cons, List.map_map, List.singleton_append]
      congr 1
      · simp [h]
      · apply List.map_congr_left
        intro i _
        simp only [Function.comp, wrapInt_add_left]
        congr 1
        push_cast
        ring
    | get id =>
      simp only [Op.isCreate] at hs
      rw [ih _ (by rw [hs]; exact h), hs, numCreates_cons]
      simp [step, Ret.createdID?, Op.isCreate]
    | list =>
      simp only [Op.isCreate] at hs
      rw [ih _ (by rw [hs]; exact h), hs, numCreates_cons]
      simp [step, Ret.createdID?, Op.isCreate]
    | update id t d c n =>
      simp only [Op.isCreate] at hs
      rw [ih _ (by rw [hs]; exact h), hs, numCreates_cons]
      simp [step, Ret.createdID?, Op.isCreate]
    | delete id =>
      simp only [Op.isCreate] at hs
      rw [ih _ (by rw [hs]; exact h), hs, numCreates_cons]
      simp [step, Ret.createdID?, Op.isCreate]

theorem newTaskService_nextID_inRange :
    wrapInt NewTaskService.nextID = NewTaskService.nextID := by
  decide

theorem createdIDs_getElem? (ts : TaskService) (ops : List Op)
    (h : wrapInt ts.nextID = ts.nextID) (i : Nat) (hi : i < numCreates ops) :
    (createdIDs ts ops)[i]? = some (wrapInt (ts.nextID + i)) := by
  rw [createdIDs_eq ts ops h, List.getElem?_map, List.getElem?_range hi]
  rfl

theorem pairwise_getElem? {α : Type} {R : α → α → Prop} {l : List α}
    (hl : l.Pairwise R) {i j : Nat} {a b : α} (hij : i < j)
    (ha : l[i]? = some a) (hb : l[j]? = some b) : R a b := by
  obtain ⟨hi, rfl⟩ := List.getElem?_eq_some.mp ha
  obtain ⟨hj, rfl⟩ := List.getElem?_eq_some.mp hb
  exact List.pairwise_iff_getElem.mp hl i j hi hj hij

/-! ## Identifiers -/

/-- C1 (amended): from the store of `NewTaskService`, whatever the sequence
of calls, the `n`-th call of `CreateTask` returns the identifier `n` reduced
to the 64-bit range of `int`, which is `n` itself for every `n < 2^63`;
calls that delete, read, update or fail do not shift the numbering. -/
theorem createTask_nth_id (ops : List Op) (n : Nat) (h₁ : 1 ≤ n)
    (h₂ : n ≤ numCreates ops) :
    (createdIDs NewTaskService ops)[n - 1]? = some (wrapInt n) ∧
      (n < 9223372036854775808 →
        (createdIDs NewTaskService ops)[n - 1]? = some (n : Int)) := by
  have key : (createdIDs NewTaskService ops)[n - 1]? = some (wrapInt n) := by
    rw [createdIDs_getElem? NewTaskService ops newTaskService_nextID_inRange (n - 1)
      (by omega)]
    congr 2
    simp only [NewTaskService]
    omega
  refine ⟨key, fun hn => ?_⟩
  rw [key, wrapInt_of_inRange (n : Int) (by omega) (by omega)]

/-- The amended C1 on the sequence create, delete 1, get 7, create: the
second call of `CreateTask` returns the identifier 2. -/
theorem createTask_nth_id_witness :
    (createdIDs NewTaskService
        [Op.create "a" "" 0 0, Op.delete 1, Op.get 7, Op.create "b" "" 1 1])[2 - 1]?
          = some (wrapInt (2 : Nat)) ∧
      ((2 : Nat) < 9223372036854775808 →
        (createdIDs NewTaskService
          [Op.create "a" "" 0 0, Op.delete 1, Op.get 7, Op.create "b" "" 1 1])[2 - 1]?
            = some ((2 : Nat) : Int)) :=
  createTask_nth_id
    [Op.create "a" "" 0 0, Op.delete 1, Op.get 7, Op.create "b" "" 1 1] 2
    (by decide) (by decide)

/-- C1 as stated fails: after `2^63` rounds of create and delete on a fresh
store, the `2^63`-th call of `CreateTask` has returned the identifier
`-2^63`, not `2^63`. -/
theorem createTask_nth_id_wraps :
    (createdIDs NewTaskService (churn 1 9223372036854775808))[9223372036854775807]?
        = some (-9223372036854775808) ∧
      (createdIDs NewTaskService (churn 1 9223372036854775808))[9223372036854775807]?
        ≠ some 9223372036854775808 := by
  have key : (createdIDs NewTaskService (churn 1 9223372036854775808))[9223372036854775807]?
      = some (-9223372036854775808) := by
    rw [createdIDs_getElem? NewTaskService _ newTaskService_nextID_inRange
      9223372036854775807 (by rw [numCreates_churn]; omega)]
    congr 1
  refine ⟨key, ?_⟩
  rw [key]
  intro h
  injection h with h
  omega

/-- C2 (amended): from the store of `NewTaskService`, for every sequence of
calls with fewer than `2^63` calls of `CreateTask`, the identifiers the calls
of `CreateTask` return are strictly increasing in call order, hence pairwise
distinct, whatever calls of `DeleteTask` come in between. -/
theorem createdIDs_strictly_increasing (ops : List Op)
    (h : numCreates ops < 9223372036854775808) :
    (createdIDs NewTaskService ops).Pairwise (fun a b => a < b) ∧
      (createdIDs NewTaskService ops).Nodup := by
  have hp : (createdIDs NewTaskService ops).Pairwise (fun a b => a < b) := by
    rw [createdIDs_eq NewTaskService ops newTaskService_nextID_inRange,
      List.pairwise_map]
    refine List.Pairwise.imp_of_mem ?_ (List.pairwise_lt_range (numCreates ops))
    intro a b ha hb hab
    have ha' := List.mem_range.mp ha
    have hb' := List.mem_range.mp hb
    simp only [NewTaskService]
    unfold wrapInt
    omega
  exact ⟨hp, hp.imp (fun hab => ne_of_lt hab)⟩

/-- The amended C2 on create, create, delete 1, create: the identifiers
1, 2, 3 are increasing and distinct. -/
theorem createdIDs_strictly_increasing_witness :
    (createdIDs NewTaskService
        [Op.create "a" "" 0 0, Op.create "b" "" 1 1, Op.delete 1,
          Op.create "c" "" 2 2]).Pairwise (fun a b => a < b) ∧
      (createdIDs NewTaskService
        [Op.create "a" "" 0 0, Op.create "b" "" 1 1, Op.delete 1,
          Op.create "c" "" 2 2]).Nodup :=
  createdIDs_strictly_increasing
    [Op.create "a" "" 0 0, Op.create "b" "" 1 1, Op.delete 1, Op.create "c" "" 2 2]
    (by decide)

/-- C2 as stated fails: over `2^63` rounds of create and delete on a fresh
store the identifiers returned are not increasing (the last one is `-2^63`,
below all the others). -/
theorem createdIDs_not_increasing :
    ¬ (createdIDs NewTaskService (churn 1 9223372036854775808)).Pairwise
        (fun a b => a < b) := by
  intro hp
  have h₀ := createdIDs_getElem? NewTaskService (churn 1 9223372036854775808)
    newTaskService_nextID_inRange 0 (by rw [numCreates_churn]; omega)
  have h₁ := createdIDs_getElem? NewTaskService (churn 1 9223372036854775808)
    newTaskService_nextID_inRange 9223372036854775807 (by rw [numCreates_churn]; omega)
  have hlt := pairwise_getElem? hp (by omega) h₀ h₁
  revert hlt
  simp only [NewTaskService]
  unfold wrapInt
  omega

/-! ## Creation and lookup -/

/-- C3: in every state of the store and for every title and description, the
empty title included, `CreateTask` returns a task with that title and
description and `Completed = false`, and `GetTask` on the returned identifier
right afterwards returns that same task: same identifier, title, description,
flag and timestamps. -/
theorem createTask_then_getTask (ts : TaskService) (title description : String)
    (now₁ now₂ : Time) :
    (CreateTask ts title description now₁ now₂).2.Title = title ∧
      (CreateTask ts title description now₁ now₂).2.Description = description ∧
      (CreateTask ts title description now₁ now₂).2.Completed = false ∧
      GetTask (CreateTask ts title description now₁ now₂).1
          (CreateTask ts title description now₁ now₂).2.ID
        = Except.ok (CreateTask ts title description now₁ now₂).2 := by
  refine ⟨rfl, rfl, rfl, ?_⟩
  simp only [CreateTask, GetTask, mapLookup_mapAssign_self]

/-- C4 (amended): the task `CreateTask` returns has `CreatedAt` equal to the
first and `UpdatedAt` equal to the second of the two clock readings of the
call; the two fields are equal exactly when the two readings are, and
`CreatedAt <= UpdatedAt` as soon as the second reading is not before the
first. -/
theorem createTask_timestamps (ts : TaskService) (title description : String)
    (now₁ now₂ : Time) :
    (CreateTask ts title description now₁ now₂).2.CreatedAt = now₁ ∧
      (CreateTask ts title description now₁ now₂).2.UpdatedAt = now₂ ∧
      ((CreateTask ts title description now₁ now₂).2.CreatedAt
          = (CreateTask ts title description now₁ now₂).2.UpdatedAt ↔ now₁ = now₂) ∧
      (now₁ ≤ now₂ →
        (CreateTask ts title description now₁ now₂).2.CreatedAt
          ≤ (CreateTask ts title description now₁ now₂).2.UpdatedAt) :=
  ⟨rfl, rfl, Iff.rfl, fun h => h⟩

/-- C4 as stated fails: when the clock moves between the two calls of
`time.Now()` of `CreateTask`, the returned task has `CreatedAt` different
from `UpdatedAt`. -/
theorem createTask_timestamps_differ :
    (CreateTask NewTaskService "Buy milk" "2%" 100 101).2.CreatedAt
      ≠ (CreateTask NewTaskService "Buy milk" "2%" 100 101).2.UpdatedAt := by
  decide

/-! ## The not-found error -/

theorem fmtInt_eq_toString (i : Int) : fmtInt i = toString i := by
  cases i with
  | ofNat n =>
    have h : ¬ ((n : Int) < 0) := by omega
    simp only [fmtInt, Int.ofNat_eq_coe, h, if_false, Int.natAbs_ofNat]
    rfl
  | negSucc n =>
    have h : Int.negSucc n < 0 := Int.negSucc_lt_zero n
    simp only [fmtInt, h, if_true]
    rfl

theorem getTask_error_iff (ts : TaskService) (id : Int) :
    GetTask ts id = Except.error (notFound id) ↔ id ∉ mapKeys ts.tasks := by
  rw [← mapLookup_eq_none_iff]
  unfold GetTask
  cases mapLookup ts.tasks id <;> simp

theorem getTask_ok_iff (ts : TaskService) (id : Int) :
    (∃ task, GetTask ts id = Except.ok task) ↔ id ∈ mapKeys ts.tasks := by
  rw [← not_iff_not, ← mapLookup_eq_none_iff]
  unfold GetTask
  cases mapLookup ts.tasks id <;> simp

theorem updateTask_error_iff (ts : TaskService) (id : Int) (title description : String)
    (completed : Bool) (now : Time) :
    (UpdateTask ts id title description completed now).2 = Except.error (notFound id)
      ↔ id ∉ mapKeys ts.tasks := by
  rw [← mapLookup_eq_none_iff]
  unfold UpdateTask
  cases mapLookup ts.tasks id <;> simp

theorem updateTask_ok_iff (ts : TaskService) (id : Int) (title description : String)
    (completed : Bool) (now : Time) :
    (∃ task, (UpdateTask ts id title description completed now).2 = Except.ok task)
      ↔ id ∈ mapKeys ts.tasks := by
  rw [← not_iff_not, ← mapLookup_eq_none_iff]
  unfold UpdateTask
  cases mapLookup ts.tasks id <;> simp

theorem deleteTask_error_iff (ts : TaskService) (id : Int) :
    (DeleteTask ts id).2 = Except.error (notFound id) ↔ id ∉ mapKeys ts.tasks := by
  rw [← mapLookup_eq_none_iff]
  unfold DeleteTask
  cases mapLookup ts.tasks id <;> simp

theorem deleteTask_ok_iff (ts : TaskService) (id : Int) :
    (DeleteTask ts id).2 = Except.ok () ↔ id ∈ mapKeys ts.tasks := by
  rw [← not_iff_not, ← mapLookup_eq_none_iff]
  unfold DeleteTask
  cases mapLookup ts.tasks id <;> simp

/-- C5: in every state of the store and for every integer `id`, zero and the
negative ones included, each of `GetTask`, `UpdateTask` and `DeleteTask`
returns the error "задача с ID <id> не найдена", with `id` in decimal,
exactly when the map holds no record under `id`, and returns without an error
exactly when it holds one. -/
theorem notFound_iff_absent (ts : TaskService) (id : Int) (title description : String)
    (completed : Bool) (now : Time) :
    notFound id = "задача с ID " ++ toString id ++ " не найдена" ∧
      (GetTask ts id = Except.error (notFound id) ↔ id ∉ mapKeys ts.tasks) ∧
      ((UpdateTask ts id title description completed now).2
          = Except.error (notFound id) ↔ id ∉ mapKeys ts.tasks) ∧
      ((DeleteTask ts id).2 = Except.error (notFound id) ↔ id ∉ mapKeys ts.tasks) ∧
      ((∃ task, GetTask ts id = Except.ok task) ↔ id ∈ mapKeys ts.tasks) ∧
      ((∃ task, (UpdateTask ts id title description completed now).2 = Except.ok task)
          ↔ id ∈ mapKeys ts.tasks) ∧
      ((DeleteTask ts id).2 = Except.ok () ↔ id ∈ mapKeys ts.tasks) := by
  refine ⟨?_, getTask_error_iff ts id, updateTask_error_iff ts id _ _ _ _,
    deleteTask_error_iff ts id, getTask_ok_iff ts id, updateTask_ok_iff ts id _ _ _ _,
    deleteTask_ok_iff ts id⟩
  rw [notFound, fmtInt_eq_toString]

/-- The error texts of the tests of the repository, and of a negative and a
zero identifier. -/
theorem notFound_examples :
    GetTask NewTaskService 999 = Except.error "задача с ID 999 не найдена" ∧
      (DeleteTask NewTaskService 999).2 = Except.error "задача с ID 999 не найдена" ∧
      (UpdateTask NewTaskService (-3) "t" "d" true 0).2
        = Except.error "задача с ID -3 не найдена" ∧
      GetTask NewTaskService 0 = Except.error "задача с ID 0 не найдена" := by
  decide

/-! ## Failed calls -/

theorem step_error_state (ts : TaskService) (op : Op)
    (h : (step ts op).2.isError = true) : (step ts op).1 = ts := by
  cases op with
  | create t d n₁ n₂ => simp [step, Ret.isError] at h
  | get id => rfl
  | list => rfl
  | update id t d c n =>
    simp only [step, UpdateTask] at h ⊢
    cases hl : mapLookup ts.tasks id with
    | none => simp
    | some task => simp [hl, Ret.isError] at h
  | delete id =>
    simp only [step, DeleteTask] at h ⊢
    cases hl : mapLookup ts.tasks id with
    | none => simp
    | some task => simp [hl, Ret.isError] at h

/-- C8: a call of `GetTask`, `UpdateTask` or `DeleteTask` that returns the
not-found error leaves the store as it was, the map with every record and
every field and the counter `nextID`; so the calls that follow end in the
same state and return the same values as without the failed call. -/
theorem failed_call_leaves_store (ts : TaskService) (op : Op)
    (h : (step ts op).2.isError = true) :
    (step ts op).1 = ts ∧ (step ts op).1.tasks = ts.tasks ∧
      (step ts op).1.nextID = ts.nextID ∧
      ∀ ops : List Op, runState ts (op :: ops) = runState ts ops ∧
        runRets ts (op :: ops) = (step ts op).2 :: runRets ts ops := by
  have hs := step_error_state ts op h
  refine ⟨hs, by rw [hs], by rw [hs], fun ops => ?_⟩
  simp only [runState, runRets, hs, and_self]

/-- C8 on a store holding task 1: `DeleteTask 5` fails and changes
nothing. -/
theorem failed_call_leaves_store_witness :
    (step (CreateTask NewTaskService "a" "b" 0 0).1 (Op.delete 5)).1
        = (CreateTask NewTaskService "a" "b" 0 0).1 ∧
      (step (CreateTask NewTaskService "a" "b" 0 0).1 (Op.delete 5)).1.tasks
        = (CreateTask NewTaskService "a" "b" 0 0).1.tasks ∧
      (step (CreateTask NewTaskService "a" "b" 0 0).1 (Op.delete 5)).1.nextID
        = (CreateTask NewTaskService "a" "b" 0 0).1.nextID ∧
      ∀ ops : List Op,
        runState (CreateTask NewTaskService "a" "b" 0 0).1 (Op.delete 5 :: ops)
          = runState (CreateTask NewTaskService "a" "b" 0 0).1 ops ∧
        runRets (CreateTask NewTaskService "a" "b" 0 0).1 (Op.delete 5 :: ops)
          = (step (CreateTask NewTaskService "a" "b" 0 0).1 (Op.delete 5)).2
            :: runRets (CreateTask NewTaskService "a" "b" 0 0).1 ops :=
  failed_call_leaves_store (CreateTask NewTaskService "a" "b" 0 0).1 (Op.delete 5)
    (by decide)

/-! ## Well-formed stores -/

theorem wf_newTaskService : WF NewTaskService := by
  simp [WF, NewTaskService, mapKeys]

theorem wf_createTask (ts : TaskService) (title description : String) (now₁ now₂ : Time)
    (h : WF ts) : WF (CreateTask ts title description now₁ now₂).1 := by
  refine ⟨nodup_mapKeys_mapAssign _ _ _ h.1, ?_⟩
  intro k task hm
  rcases mem_mapAssign hm with hm | hm
  · injection hm with h₁ h₂
    rw [h₁, h₂]
  · exact h.2 k task hm

theorem wf_updateTask (ts : TaskService) (id : Int) (title description : String)
    (completed : Bool) (now : Time) (h : WF ts) :
    WF (UpdateTask ts id title description completed now).1 := by
  unfold UpdateTask
  cases hl : mapLookup ts.tasks id with
  | none => exact h
  | some old =>
    refine ⟨nodup_mapKeys_mapAssign _ _ _ h.1, ?_⟩
    intro k task hm
    rcases mem_mapAssign hm with hm | hm
    · injection hm with h₁ h₂
      rw [h₁, h₂]
      exact h.2 id old (mapLookup_mem _ _ _ hl)
    · exact h.2 k task hm

theorem wf_deleteTask (ts : TaskService) (id : Int) (h : WF ts) :
    WF (DeleteTask ts id).1 := by
  unfold DeleteTask
  cases hl : mapLookup ts.tasks id with
  | none => exact h
  | some old =>
    refine ⟨nodup_mapKeys_mapDelete _ _ h.1, ?_⟩
    intro k task hm
    exact h.2 k task (mem_mapDelete hm).1

theorem wf_step (ts : TaskService) (op : Op) (h : WF ts) : WF (step ts op).1 := by
  cases op with
  | create t d n₁ n₂ => exact wf_createTask ts t d n₁ n₂ h
  | get id => exact h
  | list => exact h
  | update id t d c n => exact wf_updateTask ts id t d c n h
  | delete id => exact wf_deleteTask ts id h

theorem wf_runState (ts : TaskService) (ops : List Op) (h : WF ts) :
    WF (runState ts ops) := by
  induction ops generalizing ts with
  | nil => exact h
  | cons op ops ih => exact ih _ (wf_step ts op h)

/-! ## Update -/

/-- C7: in every state reached from `NewTaskService` and for every `id` that
has a record there, `UpdateTask id title description completed` succeeds and
returns the task with that `id`, with exactly the three values given, with
the `CreatedAt` the record had before and with `UpdatedAt` set to the clock
reading of the call; `GetTask id` right afterwards returns that same task.
The three fields are overwritten whatever they held before. -/
theorem updateTask_full_replace (ops : List Op) (id : Int) (title description : String)
    (completed : Bool) (now : Time)
    (h : id ∈ mapKeys (runState NewTaskService ops).tasks) :
    ∃ old : Task, GetTask (runState NewTaskService ops) id = Except.ok old ∧
      (UpdateTask (runState NewTaskService ops) id title description completed now).2
        = Except.ok
          { ID := id
            Title := title
            Description := description
            Completed := completed
            CreatedAt := old.CreatedAt
            UpdatedAt := now } ∧
      GetTask (UpdateTask (runState NewTaskService ops) id title description
          completed now).1 id
        = (UpdateTask (runState NewTaskService ops) id title description
          completed now).2 := by
  have hwf := wf_runState NewTaskService ops wf_newTaskService
  cases hl : mapLookup (runState NewTaskService ops).tasks id with
  | none => exact absurd h ((mapLookup_eq_none_iff _ _).mp hl)
  | some old =>
    have hid : old.ID = id := hwf.2 id old (mapLookup_mem _ _ _ hl)
    refine ⟨old, ?_, ?_, ?_⟩
    · simp only [GetTask, hl]
    · simp only [UpdateTask, hl, hid]
    · simp only [UpdateTask, hl, GetTask, mapLookup_mapAssign_self]

/-- C7 on the store after one create: updating task 1 replaces the three
fields and keeps `CreatedAt`. -/
theorem updateTask_full_replace_witness :
    ∃ old : Task,
      GetTask (runState NewTaskService [Op.create "a" "b" 3 4]) 1 = Except.ok old ∧
      (UpdateTask (runState NewTaskService [Op.create "a" "b" 3 4]) 1 "" "whole" true 9).2
        = Except.ok
          { ID := 1
            Title := ""
            Description := "whole"
            Completed := true
            CreatedAt := old.CreatedAt
            UpdatedAt := 9 } ∧
      GetTask (UpdateTask (runState NewTaskService [Op.create "a" "b" 3 4]) 1 ""
          "whole" true 9).1 1
        = (UpdateTask (runState NewTaskService [Op.create "a" "b" 3 4]) 1 ""
          "whole" true 9).2 :=
  updateTask_full_replace [Op.create "a" "b" 3 4] 1 "" "whole" true 9 (by decide)

/-! ## Timestamps -/

theorem timestamps_ordered_aux (ts : TaskService) (ops : List Op)
    (h : ∀ p ∈ ts.tasks, p.2.CreatedAt ≤ p.2.UpdatedAt ∧
      ∀ r ∈ clockReadings ts ops, p.2.CreatedAt ≤ r)
    (hc : (clockReadings ts ops).Pairwise (fun a b => a ≤ b)) :
    ∀ p ∈ (runState ts ops).tasks, p.2.CreatedAt ≤ p.2.UpdatedAt := by
  induction ops generalizing ts with
  | nil => exact fun p hp => (h p hp).1
  | cons op ops ih =>
    simp only [clockReadings] at h hc
    rw [List.pairwise_append] at hc
    obtain ⟨hc₁, hc₂, hc₃⟩ := hc
    refine ih (step ts op).1 ?_ hc₂
    intro p hp
    cases op with
    | create t d n₁ n₂ =>
      simp only [step, CreateTask] at hp
      rcases mem_mapAssign hp with hp | hp
      · subst hp
        simp only [stepReadings, List.pairwise_cons, List.mem_singleton, forall_eq] at hc₁
        refine ⟨hc₁.1, fun r hr => ?_⟩
        exact hc₃ n₁ (by simp [stepReadings]) r hr
      · exact ⟨(h p hp).1, fun r hr => (h p hp).2 r (List.mem_append_right _ hr)⟩
    | get id =>
      exact ⟨(h p hp).1, fun r hr => (h p hp).2 r (List.mem_append_right _ hr)⟩
    | list =>
      exact ⟨(h p hp).1, fun r hr => (h p hp).2 r (List.mem_append_right _ hr)⟩
    | update id t d c n =>
      simp only [step, UpdateTask] at hp
      cases hl : mapLookup ts.tasks id with
      | none =>
        simp only [hl] at hp
        exact ⟨(h p hp).1, fun r hr => (h p hp).2 r (List.mem_append_right _ hr)⟩
      | some old =>
        simp only [hl] at hp
        rcases mem_mapAssign hp with hp | hp
        · subst hp
          have hold := h (id, old) (mapLookup_mem _ _ _ hl)
          refine ⟨?_, fun r hr => hold.2 r (List.mem_append_right _ hr)⟩
          exact hold.2 n (List.mem_append_left _ (by simp [stepReadings, hl]))
        · exact ⟨(h p hp).1, fun r hr => (h p hp).2 r (List.mem_append_right _ hr)⟩
    | delete id =>
      simp only [step, DeleteTask] at hp
      cases hl : mapLookup ts.tasks id with
      | none =>
        simp only [hl] at hp
        exact ⟨(h p hp).1, fun r hr => (h p hp).2 r (List.mem_append_right _ hr)⟩
      | some old =>
        simp only [hl] at hp
        have hp' := (mem_mapDelete hp).1
        exact ⟨(h p hp').1, fun r hr => (h p hp').2 r (List.mem_append_right _ hr)⟩

/-- C10: in every state reached from `NewTaskService` by a sequence of calls
whose successive clock readings are non-decreasing, every stored task has
`CreatedAt <= UpdatedAt`; the calls may be calls of `CreateTask`, `UpdateTask`
and `DeleteTask` in any order, so each of them preserves the property. -/
theorem createdAt_le_updatedAt (ops : List Op)
    (hc : (clockReadings NewTaskService ops).Pairwise (fun a b => a ≤ b)) :
    ∀ task ∈ GetAllTasks (runState NewTaskService ops),
      task.CreatedAt ≤ task.UpdatedAt := by
  intro task ht
  obtain ⟨p, hp, rfl⟩ := List.mem_map.mp ht
  exact timestamps_ordered_aux NewTaskService ops
    (fun q hq => by simp [NewTaskService] at hq) hc p hp

/-- C10 on create, update 1, create, delete 2 with the readings 1, 1, 2, 3, 5. -/
theorem createdAt_le_updatedAt_witness :
    (clockReadings NewTaskService
        [Op.create "a" "" 1 1, Op.update 1 "b" "" true 2, Op.create "c" "" 3 5,
          Op.delete 2]).Pairwise (fun a b => a ≤ b) ∧
      ∀ task ∈ GetAllTasks (runState NewTaskService
          [Op.create "a" "" 1 1, Op.update 1 "b" "" true 2, Op.create "c" "" 3 5,
            Op.delete 2]),
        task.CreatedAt ≤ task.UpdatedAt :=
  ⟨by decide, createdAt_le_updatedAt
    [Op.create "a" "" 1 1, Op.update 1 "b" "" true 2, Op.create "c" "" 3 5, Op.delete 2]
    (by decide)⟩

/-! ## The records of the store and the history of the calls -/

theorem createdIDs_append (ts : TaskService) (ops₁ ops₂ : List Op) :
    createdIDs ts (ops₁ ++ ops₂)
      = createdIDs ts ops₁ ++ createdIDs (runState ts ops₁) ops₂ := by
  simp only [createdIDs, runRets_append, List.filterMap_append]

theorem deletedIDs_append (ts : TaskService) (ops₁ ops₂ : List Op) :
    deletedIDs ts (ops₁ ++ ops₂)
      = deletedIDs ts ops₁ ++ deletedIDs (runState ts ops₁) ops₂ := by
  induction ops₁ generalizing ts with
  | nil => rfl
  | cons op ops ih => simp [deletedIDs, runState, ih]

theorem length_mapKeys (m : List (Int × Task)) : (mapKeys m).length = m.length := by
  simp [mapKeys]

theorem mapLookup_of_mem (m : List (Int × Task)) (k : Int) (v : Task)
    (hn : (mapKeys m).Nodup) (h : (k, v) ∈ m) : mapLookup m k = some v := by
  induction m with
  | nil => simp at h
  | cons p m ih =>
    obtain ⟨k', v'⟩ := p
    have hn' : k' ∉ mapKeys m ∧ (mapKeys m).Nodup := by
      simpa [mapKeys] using hn
    rcases List.mem_cons.mp h with h | h
    · injection h with h₁ h₂
      simp [mapLookup, h₁, h₂]
    · have hk : ¬ k' = k := fun e => hn'.1 (e ▸ mem_mapKeys_of_mem h)
      simp [mapLookup, hk, ih hn'.2 h]

theorem wrapInt_succ_injOn (i n : Nat) (hi : i < n) (hn : n < 18446744073709551616) :
    wrapInt (1 + (i : Int)) ≠ wrapInt (1 + (n : Int)) := by
  unfold wrapInt
  omega

/-- The records of the store against the history of the calls, as long as
the counter has not come back to an identifier it handed out before. -/
theorem history_inv (ops : List Op) (h : numCreates ops ≤ 18446744073709551616) :
    (∀ id, id ∈ mapKeys (runState NewTaskService ops).tasks ↔
        id ∈ createdIDs NewTaskService ops ∧ id ∉ deletedIDs NewTaskService ops) ∧
      (∀ id ∈ deletedIDs NewTaskService ops, id ∈ createdIDs NewTaskService ops) ∧
      (runState NewTaskService ops).tasks.length + (deletedIDs NewTaskService ops).length
        = numCreates ops := by
  induction ops using List.reverseRecOn with
  | nil => simp [runState, createdIDs, runRets, deletedIDs, numCreates, NewTaskService, mapKeys]
  | append_singleton ops op ih =>
    rw [numCreates_append] at h
    obtain ⟨ih₁, ih₂, ih₃⟩ := ih (by omega)
    have hwf := wf_runState NewTaskService ops wf_newTaskService
    have hnext := runState_nextID NewTaskService ops newTaskService_nextID_inRange
    rw [runState_append, createdIDs_append, deletedIDs_append, numCreates_append]
    generalize hts : runState NewTaskService ops = ts at *
    cases op with
    | create t d n₁ n₂ =>
      have hcount : numCreates ops < 18446744073709551616 := by
        simp [numCreates, Op.isCreate] at h
        simp only [numCreates]
        omega
      have hfresh : ts.nextID ∉ createdIDs NewTaskService ops := by
        rw [createdIDs_eq NewTaskService ops newTaskService_nextID_inRange, hnext]
        intro hm
        obtain ⟨i, hi, he⟩ := List.mem_map.mp hm
        exact wrapInt_succ_injOn i (numCreates ops) (List.mem_range.mp hi) hcount he
      have hnk : ts.nextID ∉ mapKeys ts.tasks := fun hm => hfresh ((ih₁ _).mp hm).1
      have hkeys := mapKeys_mapAssign_of_not_mem ts.tasks ts.nextID
        (CreateTask ts t d n₁ n₂).2 hnk
      have hlen : (mapAssign ts.tasks ts.nextID (CreateTask ts t d n₁ n₂).2).length
          = ts.tasks.length + 1 := by
        rw [← length_mapKeys, hkeys, List.length_append, length_mapKeys]
        rfl
      simp only [runState, step, createdIDs, runRets, deletedIDs, stepDeleted,
        List.filterMap_cons, Ret.createdID?, List.filterMap_nil, List.append_nil,
        numCreates, List.countP_cons, List.countP_nil, Op.isCreate, if_true]
      simp only [createdIDs, numCreates] at ih₁ ih₂ ih₃ hfresh
      refine ⟨fun id => ?_, fun id hid => List.mem_append_left _ (ih₂ id hid), ?_⟩
      · show id ∈ mapKeys (mapAssign ts.tasks ts.nextID (CreateTask ts t d n₁ n₂).2) ↔ _
        rw [hkeys, List.mem_append, List.mem_append, List.mem_singleton,
          List.mem_singleton, ih₁ id]
        constructor
        · rintro (⟨hc, hd⟩ | he)
          · exact ⟨Or.inl hc, hd⟩
          · refine ⟨Or.inr he, fun hd => hfresh ?_⟩
            have := ih₂ id hd
            rwa [he] at this
        · rintro ⟨hc | he, hd⟩
          · exact Or.inl ⟨hc, hd⟩
          · exact Or.inr he
      · show (mapAssign ts.tasks ts.nextID (CreateTask ts t d n₁ n₂).2).length + _ = _
        rw [hlen]
        omega
    | get id =>
      have hc : createdIDs ts [Op.get id] = [] := rfl
      have hd : deletedIDs ts [Op.get id] = [] := rfl
      have hn : numCreates [Op.get id] = 0 := rfl
      have hs : runState ts [Op.get id] = ts := rfl
      rw [hc, hd, hn, hs]
      simp only [List.append_nil, Nat.add_zero]
      exact ⟨ih₁, ih₂, ih₃⟩
    | list =>
      have hc : createdIDs ts [Op.list] = [] := rfl
      have hd : deletedIDs ts [Op.list] = [] := rfl
      have hn : numCreates [Op.list] = 0 := rfl
      have hs : runState ts [Op.list] = ts := rfl
      rw [hc, hd, hn, hs]
      simp only [List.append_nil, Nat.add_zero]
      exact ⟨ih₁, ih₂, ih₃⟩
    | update id t d c n =>
      have hc : createdIDs ts [Op.update id t d c n] = [] := rfl
      have hd : deletedIDs ts [Op.update id t d c n] = [] := rfl
      have hn : numCreates [Op.update id t d c n] = 0 := rfl
      rw [hc, hd, hn]
      simp only [List.append_nil, Nat.add_zero]
      cases hl : mapLookup ts.tasks id with
      | none =>
        have hs : runState ts [Op.update id t d c n] = ts := by
          simp only [runState, step, UpdateTask, hl]
        rw [hs]
        exact ⟨ih₁, ih₂, ih₃⟩
      | some old =>
        have hmem : id ∈ mapKeys ts.tasks := mem_mapKeys_of_mem (mapLookup_mem _ _ _ hl)
        have hkeys : ∀ v, mapKeys (mapAssign ts.tasks id v) = mapKeys ts.tasks :=
          fun v => mapKeys_mapAssign_of_mem ts.tasks id v hmem
        have hlen : ∀ v, (mapAssign ts.tasks id v).length = ts.tasks.length := by
          intro v
          rw [← length_mapKeys, hkeys, length_mapKeys]
        simp only [runState, step, UpdateTask, hl, hkeys, hlen]
        exact ⟨ih₁, ih₂, ih₃⟩
    | delete id =>
      cases hl : mapLookup ts.tasks id with
      | none =>
        have hc : createdIDs ts [Op.delete id] = [] := rfl
        have hd : deletedIDs ts [Op.delete id] = [] := by
          simp only [deletedIDs, stepDeleted, hl, List.append_nil]
        have hn : numCreates [Op.delete id] = 0 := rfl
        have hs : runState ts [Op.delete id] = ts := by
          simp only [runState, step, DeleteTask, hl]
        rw [hc, hd, hn, hs]
        simp only [List.append_nil, Nat.add_zero]
        exact ⟨ih₁, ih₂, ih₃⟩
      | some old =>
        have hmem : id ∈ mapKeys ts.tasks := mem_mapKeys_of_mem (mapLookup_mem _ _ _ hl)
        have hlen := length_mapDelete ts.tasks id hwf.1 hmem
        simp only [runState, step, DeleteTask, hl, createdIDs, runRets, deletedIDs,
          stepDeleted, List.filterMap_cons, Ret.createdID?, List.filterMap_nil,
          List.append_nil, numCreates, List.countP_cons, List.countP_nil, Op.isCreate]
        simp only [createdIDs, numCreates] at ih₁ ih₂ ih₃
        refine ⟨fun j => ?_, fun j hj => ?_, ?_⟩
        · rw [mem_mapKeys_mapDelete, ih₁ j, List.mem_append, List.mem_singleton]
          tauto
        · rcases List.mem_append.mp hj with hj | hj
          · exact ih₂ j hj
          · rw [List.mem_singleton] at hj
            rw [hj]
            exact ((ih₁ id).mp hmem).1
        · simp only [List.length_append, List.length_singleton]
          simp at ih₃ ⊢
          omega

theorem map_ID_getAllTasks (ts : TaskService) (h : WF ts) :
    (GetAllTasks ts).map Task.ID = mapKeys ts.tasks := by
  simp only [GetAllTasks, mapKeys, List.map_map]
  apply List.map_congr_left
  intro p hp
  exact h.2 p.1 p.2 hp

theorem mem_getAllTasks_iff (ts : TaskService) (h : WF ts) (task : Task) :
    task ∈ GetAllTasks ts ↔ GetTask ts task.ID = Except.ok task := by
  constructor
  · intro ht
    obtain ⟨p, hp, rfl⟩ := List.mem_map.mp ht
    have hid : p.2.ID = p.1 := h.2 p.1 p.2 hp
    have := mapLookup_of_mem ts.tasks p.1 p.2 h.1 hp
    simp only [GetTask, hid, this]
  · intro hg
    unfold GetTask at hg
    cases hl : mapLookup ts.tasks task.ID with
    | none => simp [hl] at hg
    | some v =>
      simp only [hl, Except.ok.injEq] at hg
      subst hg
      exact List.mem_map.mpr ⟨(v.ID, v), mapLookup_mem _ _ _ hl, rfl⟩

theorem mem_deletedIDs (ts : TaskService) (ops : List Op) (id : Int)
    (h : id ∈ deletedIDs ts ops) : Op.delete id ∈ ops := by
  induction ops generalizing ts with
  | nil => simp [deletedIDs] at h
  | cons op ops ih =>
    simp only [deletedIDs, List.mem_append] at h
    rcases h with h | h
    · cases op with
      | delete j =>
        simp only [stepDeleted] at h
        cases hl : mapLookup ts.tasks j with
        | none => simp [hl] at h
        | some v =>
          simp only [hl, List.mem_singleton] at h
          simp [h]
      | create t d n₁ n₂ => simp [stepDeleted] at h
      | get j => simp [stepDeleted] at h
      | list => simp [stepDeleted] at h
      | update j t d c n => simp [stepDeleted] at h
    · exact List.mem_cons_of_mem _ (ih _ h)

theorem mem_churn_delete (start : Int) (n : Nat) (id : Int)
    (h : Op.delete id ∈ churn start n) : ∃ i : Nat, i < n ∧ id = wrapInt (start + i) := by
  induction n generalizing start with
  | zero => simp [churn] at h
  | succ n ih =>
    simp only [churn, List.mem_cons] at h
    rcases h with h | h | h
    · cases h
    · injection h with h
      exact ⟨0, by omega, by simp [h]⟩
    · obtain ⟨i, hi, he⟩ := ih (start + 1) h
      refine ⟨i + 1, by omega, ?_⟩
      rw [he]
      congr 1
      push_cast
      ring

/-! ## Listing -/

/-- C9 (amended): in every state reached from `NewTaskService` by a sequence
with at most `2^64` calls of `CreateTask`, whatever the order in which
`GetAllTasks` lists the map, the result holds exactly the current records:
no identifier twice, a task is listed exactly when `GetTask` on its identifier
returns it, the identifiers listed are those handed out by a `CreateTask` and
not removed by a successful `DeleteTask`, and the length is the number of
calls of `CreateTask` minus the number of successful calls of `DeleteTask`. -/
theorem getAllTasks_current_records (ops : List Op)
    (h : numCreates ops ≤ 18446744073709551616) (l : List Task)
    (hl : l.Perm (GetAllTasks (runState NewTaskService ops))) :
    (l.map Task.ID).Nodup ∧
      (∀ task, task ∈ l ↔
        GetTask (runState NewTaskService ops) task.ID = Except.ok task) ∧
      (∀ id, id ∈ l.map Task.ID ↔
        id ∈ createdIDs NewTaskService ops ∧ id ∉ deletedIDs NewTaskService ops) ∧
      (l.length : Int)
        = (numCreates ops : Int) - ((deletedIDs NewTaskService ops).length : Int) := by
  have hwf := wf_runState NewTaskService ops wf_newTaskService
  obtain ⟨h₁, _, h₃⟩ := history_inv ops h
  have hids := map_ID_getAllTasks _ hwf
  have hperm := hl.map Task.ID
  refine ⟨?_, fun task => ?_, fun id => ?_, ?_⟩
  · rw [hperm.nodup_iff, hids]
    exact hwf.1
  · rw [hl.mem_iff]
    exact mem_getAllTasks_iff _ hwf task
  · rw [hperm.mem_iff, hids]
    exact h₁ id
  · have hlen : l.length = (runState NewTaskService ops).tasks.length := by
      rw [hl.length_eq, GetAllTasks, List.length_map]
    omega

/-- The amended C9 on create, create, delete 2: the list holds the task 1
only. -/
theorem getAllTasks_current_records_witness :
    ((GetAllTasks (runState NewTaskService
        [Op.create "Buy milk" "2%" 0 0, Op.create "Walk dog" "" 1 1,
          Op.delete 2])).map Task.ID).Nodup ∧
      (∀ task, task ∈ GetAllTasks (runState NewTaskService
          [Op.create "Buy milk" "2%" 0 0, Op.create "Walk dog" "" 1 1, Op.delete 2]) ↔
        GetTask (runState NewTaskService
          [Op.create "Buy milk" "2%" 0 0, Op.create "Walk dog" "" 1 1, Op.delete 2])
            task.ID = Except.ok task) ∧
      (∀ id, id ∈ (GetAllTasks (runState NewTaskService
          [Op.create "Buy milk" "2%" 0 0, Op.create "Walk dog" "" 1 1,
            Op.delete 2])).map Task.ID ↔
        id ∈ createdIDs NewTaskService
          [Op.create "Buy milk" "2%" 0 0, Op.create "Walk dog" "" 1 1, Op.delete 2] ∧
        id ∉ deletedIDs NewTaskService
          [Op.create "Buy milk" "2%" 0 0, Op.create "Walk dog" "" 1 1, Op.delete 2]) ∧
      ((GetAllTasks (runState NewTaskService
          [Op.create "Buy milk" "2%" 0 0, Op.create "Walk dog" "" 1 1,
            Op.delete 2])).length : Int)
        = (numCreates
            [Op.create "Buy milk" "2%" 0 0, Op.create "Walk dog" "" 1 1, Op.delete 2] : Int)
          - ((deletedIDs NewTaskService
            [Op.create "Buy milk" "2%" 0 0, Op.create "Walk dog" "" 1 1,
              Op.delete 2]).length : Int) :=
  getAllTasks_current_records
    [Op.create "Buy milk" "2%" 0 0, Op.create "Walk dog" "" 1 1, Op.delete 2]
    (by decide) _ (List.Perm.refl _)

/-- The scenario of the specification: two creates, a list, an update of
task 1, the deletion of task 2; the list then holds task 1 only and
`GetTask 2` fails. -/
theorem scenario_buy_milk :
    (GetAllTasks (runState NewTaskService
        [Op.create "Buy milk" "2%" 0 0, Op.create "Walk dog" "" 1 1])).map Task.ID
        = [1, 2] ∧
      GetAllTasks (runState NewTaskService
        [Op.create "Buy milk" "2%" 0 0, Op.create "Walk dog" "" 1 1,
          Op.update 1 "Buy milk" "whole" true 2, Op.delete 2])
        = [{ ID := 1, Title := "Buy milk", Description := "whole", Completed := true,
             CreatedAt := 0, UpdatedAt := 2 }] ∧
      GetTask (runState NewTaskService
        [Op.create "Buy milk" "2%" 0 0, Op.create "Walk dog" "" 1 1,
          Op.update 1 "Buy milk" "whole" true 2, Op.delete 2]) 2
        = Except.error "задача с ID 2 не найдена" := by
  decide

/-- C9 as stated fails: after a create, `2^64 - 1` rounds of create and
delete and one more create, the counter has come back to 1 and the last
`CreateTask` has overwritten the record 1; the list is one task shorter than
the number of creates minus the number of successful deletes. -/
theorem getAllTasks_length_after_wrap :
    ((GetAllTasks (runState NewTaskService
        ((Op.create "a" "" 0 0 :: churn 2 18446744073709551615)
          ++ [Op.create "b" "" 0 0]))).length : Int)
      ≠ (numCreates ((Op.create "a" "" 0 0 :: churn 2 18446744073709551615)
          ++ [Op.create "b" "" 0 0]) : Int)
        - ((deletedIDs NewTaskService
          ((Op.create "a" "" 0 0 :: churn 2 18446744073709551615)
            ++ [Op.create "b" "" 0 0])).length : Int) := by
  have hn : numCreates (Op.create "a" "" 0 0 :: churn 2 18446744073709551615)
      = 18446744073709551616 := by
    rw [numCreates_cons, numCreates_churn]
    rfl
  obtain ⟨h₁, _, h₃⟩ := history_inv (Op.create "a" "" 0 0 :: churn 2 18446744073709551615)
    (by rw [hn])
  have hnext := runState_nextID NewTaskService
    (Op.create "a" "" 0 0 :: churn 2 18446744073709551615) newTaskService_nextID_inRange
  rw [hn] at hnext h₃
  have hone : (runState NewTaskService
      (Op.create "a" "" 0 0 :: churn 2 18446744073709551615)).nextID = 1 := by
    rw [hnext]
    rfl
  have hmem : (1 : Int) ∈ mapKeys (runState NewTaskService
      (Op.create "a" "" 0 0 :: churn 2 18446744073709551615)).tasks := by
    rw [h₁]
    constructor
    · have := createdIDs_getElem? NewTaskService
        (Op.create "a" "" 0 0 :: churn 2 18446744073709551615)
        newTaskService_nextID_inRange 0 (by rw [hn]; omega)
      exact List.getElem?_mem this
    · intro hd
      have hd' := mem_deletedIDs _ _ _ hd
      rcases List.mem_cons.mp hd' with hd' | hd'
      · cases hd'
      · obtain ⟨i, hi, he⟩ := mem_churn_delete _ _ _ hd'
        revert he
        unfold wrapInt
        omega
  rw [runState_append, deletedIDs_append, numCreates_append, hn]
  generalize runState NewTaskService
    (Op.create "a" "" 0 0 :: churn 2 18446744073709551615) = ts at *
  have hlen : (GetAllTasks (runState ts [Op.create "b" "" 0 0])).length
      = ts.tasks.length := by
    simp only [GetAllTasks, List.length_map, runState, step, CreateTask, hone]
    rw [← length_mapKeys, mapKeys_mapAssign_of_mem _ _ _ hmem, length_mapKeys]
  have hd : deletedIDs ts [Op.create "b" "" 0 0] = [] := rfl
  have hc : numCreates [Op.create "b" "" 0 0] = 1 := rfl
  rw [hlen, hd, hc, List.append_nil]
  omega

/-! ## Deletion -/

theorem mem_mapKeys_step (ts : TaskService) (op : Op) (k : Int)
    (h : k ∈ mapKeys (step ts op).1.tasks) :
    k ∈ mapKeys ts.tasks ∨ (op.isCreate = true ∧ k = ts.nextID) := by
  cases op with
  | create t d n₁ n₂ =>
    obtain ⟨p, hp, rfl⟩ := List.mem_map.mp h
    rcases mem_mapAssign hp with hp | hp
    · exact Or.inr ⟨rfl, by rw [hp]⟩
    · exact Or.inl (List.mem_map.mpr ⟨p, hp, rfl⟩)
  | get id => exact Or.inl h
  | list => exact Or.inl h
  | update id t d c n =>
    simp only [step, UpdateTask] at h
    cases hl : mapLookup ts.tasks id with
    | none =>
      simp only [hl] at h
      exact Or.inl h
    | some old =>
      simp only [hl] at h
      rw [mapKeys_mapAssign_of_mem _ _ _ (mem_mapKeys_of_mem (mapLookup_mem _ _ _ hl))] at h
      exact Or.inl h
  | delete id =>
    simp only [step, DeleteTask] at h
    cases hl : mapLookup ts.tasks id with
    | none =>
      simp only [hl] at h
      exact Or.inl h
    | some old =>
      simp only [hl] at h
      exact Or.inl ((mem_mapKeys_mapDelete _ _ _).mp h).1

/-- An identifier the counter has passed and that the map does not hold
stays out of the map as long as the counter does not come back to it. -/
theorem absent_stays (ts : TaskService) (ops : List Op) (n i : Nat) (hi : i < n)
    (hnext : ts.nextID = wrapInt (1 + (n : Int)))
    (hb : n + numCreates ops ≤ 18446744073709551616)
    (habs : wrapInt (1 + (i : Int)) ∉ mapKeys ts.tasks) :
    wrapInt (1 + (i : Int)) ∉ mapKeys (runState ts ops).tasks := by
  induction ops generalizing ts n with
  | nil => exact habs
  | cons op ops ih =>
    rw [numCreates_cons] at hb
    have hs := step_nextID ts op
    by_cases hc : op.isCreate = true
    · simp only [hc, if_true] at hs hb
      refine ih (step ts op).1 (n + 1) (by omega) ?_ (by omega) ?_
      · have hcast : (1 + (n : Int) + 1) = 1 + ((n + 1 : Nat) : Int) := by
          push_cast
          ring
        rw [hs, hnext, wrapInt_add_left, hcast]
      · intro hm
        rcases mem_mapKeys_step ts op _ hm with hm | ⟨_, hm⟩
        · exact habs hm
        · rw [hnext] at hm
          exact wrapInt_succ_injOn i n hi (by omega) hm
    · simp only [hc, Bool.false_eq_true, if_false] at hs hb
      refine ih (step ts op).1 n hi (by rw [hs, hnext]) (by omega) ?_
      intro hm
      rcases mem_mapKeys_step ts op _ hm with hm | ⟨hm, _⟩
      · exact habs hm
      · exact hc hm

/-- C6 (amended): after `DeleteTask id` has succeeded on a state reached
from `NewTaskService`, and whatever calls follow, further creates included,
as long as the store has seen at most `2^64` calls of `CreateTask` in all,
`GetTask id`, `UpdateTask id` and `DeleteTask id` return the not-found error
and `GetAllTasks` lists no task with that identifier. -/
theorem delete_is_final (ops₁ : List Op) (id : Int) (ops₂ : List Op)
    (title description : String) (completed : Bool) (now : Time)
    (hd : (DeleteTask (runState NewTaskService ops₁) id).2 = Except.ok ())
    (hb : numCreates ops₁ + numCreates ops₂ ≤ 18446744073709551616) :
    GetTask (runState (DeleteTask (runState NewTaskService ops₁) id).1 ops₂) id
        = Except.error (notFound id) ∧
      (UpdateTask (runState (DeleteTask (runState NewTaskService ops₁) id).1 ops₂) id
          title description completed now).2 = Except.error (notFound id) ∧
      (DeleteTask (runState (DeleteTask (runState NewTaskService ops₁) id).1 ops₂) id).2
        = Except.error (notFound id) ∧
      ∀ task ∈ GetAllTasks
          (runState (DeleteTask (runState NewTaskService ops₁) id).1 ops₂),
        task.ID ≠ id := by
  have hwf₁ := wf_runState NewTaskService ops₁ wf_newTaskService
  have hwf₂ := wf_runState _ ops₂ (wf_deleteTask _ id hwf₁)
  have hmem : id ∈ mapKeys (runState NewTaskService ops₁).tasks :=
    (deleteTask_ok_iff _ id).mp hd
  obtain ⟨h₁, _, _⟩ := history_inv ops₁ (by omega)
  have hcr := ((h₁ id).mp hmem).1
  rw [createdIDs_eq NewTaskService ops₁ newTaskService_nextID_inRange] at hcr
  obtain ⟨i, hi, he⟩ := List.mem_map.mp hcr
  have he' : wrapInt (1 + (i : Int)) = id := he
  have hnext : (DeleteTask (runState NewTaskService ops₁) id).1.nextID
      = wrapInt (1 + (numCreates ops₁ : Int)) := by
    have h₀ := runState_nextID NewTaskService ops₁ newTaskService_nextID_inRange
    have h₁ := step_nextID (runState NewTaskService ops₁) (Op.delete id)
    simp only [step, Op.isCreate, Bool.false_eq_true, if_false] at h₁
    rw [h₁, h₀]
    rfl
  have habs₀ : wrapInt (1 + (i : Int))
      ∉ mapKeys (DeleteTask (runState NewTaskService ops₁) id).1.tasks := by
    rw [he']
    intro hm
    have hl := (mapLookup_eq_none_iff (runState NewTaskService ops₁).tasks id).not.mpr
      (not_not.mpr hmem)
    unfold DeleteTask at hm
    cases hl' : mapLookup (runState NewTaskService ops₁).tasks id with
    | none => exact hl hl'
    | some old =>
      simp only [hl'] at hm
      exact ((mem_mapKeys_mapDelete _ _ _).mp hm).2 rfl
  have habs := absent_stays _ ops₂ (numCreates ops₁) i (List.mem_range.mp hi) hnext hb habs₀
  rw [he'] at habs
  refine ⟨(getTask_error_iff _ id).mpr habs, (updateTask_error_iff _ id _ _ _ _).mpr habs,
    (deleteTask_error_iff _ id).mpr habs, ?_⟩
  intro task ht hid
  apply habs
  have hm : task.ID ∈ (GetAllTasks
      (runState (DeleteTask (runState NewTaskService ops₁) id).1 ops₂)).map Task.ID :=
    List.mem_map.mpr ⟨task, ht, rfl⟩
  rw [map_ID_getAllTasks _ hwf₂, hid] at hm
  exact hm

/-- The amended C6 on create, then delete 1, then two more creates and an
update: task 1 stays gone. -/
theorem delete_is_final_witness :
    GetTask (runState (DeleteTask (runState NewTaskService [Op.create "a" "" 0 0]) 1).1
        [Op.create "b" "" 1 1, Op.update 1 "x" "" true 2, Op.create "c" "" 3 3]) 1
        = Except.error (notFound 1) ∧
      (UpdateTask (runState
          (DeleteTask (runState NewTaskService [Op.create "a" "" 0 0]) 1).1
          [Op.create "b" "" 1 1, Op.update 1 "x" "" true 2, Op.create "c" "" 3 3]) 1
          "t" "d" true 4).2 = Except.error (notFound 1) ∧
      (DeleteTask (runState
          (DeleteTask (runState NewTaskService [Op.create "a" "" 0 0]) 1).1
          [Op.create "b" "" 1 1, Op.update 1 "x" "" true 2, Op.create "c" "" 3 3]) 1).2
        = Except.error (notFound 1) ∧
      ∀ task ∈ GetAllTasks (runState
          (DeleteTask (runState NewTaskService [Op.create "a" "" 0 0]) 1).1
          [Op.create "b" "" 1 1, Op.update 1 "x" "" true 2, Op.create "c" "" 3 3]),
        task.ID ≠ 1 :=
  delete_is_final [Op.create "a" "" 0 0] 1
    [Op.create "b" "" 1 1, Op.update 1 "x" "" true 2, Op.create "c" "" 3 3]
    "t" "d" true 4 (by decide) (by decide)

theorem getTask_after_create (ts : TaskService) (k : Int) (h : ts.nextID = k)
    (title description : String) (now₁ now₂ : Time) :
    GetTask (runState ts [Op.create title description now₁ now₂]) k
      = Except.ok { ID := k, Title := title, Description := description,
                    Completed := false, CreatedAt := now₁, UpdatedAt := now₂ } := by
  subst h
  simp only [runState, step, CreateTask, GetTask, mapLookup_mapAssign_self]

/-- C6 as stated fails: create, delete 1 (which succeeds), then `2^64 - 1`
rounds of create and delete and one more create: the counter is back at 1,
the last `CreateTask` stores a new task under the deleted identifier 1 and
`GetTask 1` finds it. -/
theorem deleted_id_comes_back :
    (DeleteTask (runState NewTaskService [Op.create "a" "" 0 0]) 1).2 = Except.ok () ∧
      GetTask (runState (DeleteTask (runState NewTaskService [Op.create "a" "" 0 0]) 1).1
          (churn 2 18446744073709551615 ++ [Op.create "b" "" 7 7])) 1
        = Except.ok { ID := 1, Title := "b", Description := "", Completed := false,
                      CreatedAt := 7, UpdatedAt := 7 } := by
  refine ⟨by decide, ?_⟩
  have hs₀ : (DeleteTask (runState NewTaskService [Op.create "a" "" 0 0]) 1).1
      = { tasks := [], nextID := 2 } := by
    decide
  rw [hs₀, runState_append]
  have hnext := runState_nextID { tasks := [], nextID := 2 }
    (churn 2 18446744073709551615) (by decide)
  rw [numCreates_churn] at hnext
  have hw : wrapInt (2 + ((18446744073709551615 : Nat) : Int)) = 1 := by
    unfold wrapInt
    omega
  exact getTask_after_create _ 1 (hnext.trans hw) "b" "" 7 7

/-! ## Update and the clock -/

theorem clockReadings_append (ts : TaskService) (ops₁ ops₂ : List Op) :
    clockReadings ts (ops₁ ++ ops₂)
      = clockReadings ts ops₁ ++ clockReadings (runState ts ops₁) ops₂ := by
  induction ops₁ generalizing ts with
  | nil => rfl
  | cons op ops ih => simp [clockReadings, runState, ih]

/-- The `UpdatedAt` of a stored task is a clock reading of one of the calls
made so far, or the `UpdatedAt` of a task of the initial store. -/
theorem updatedAt_mem_readings (ts : TaskService) (ops : List Op) :
    ∀ p ∈ (runState ts ops).tasks,
      p.2.UpdatedAt ∈ clockReadings ts ops ∨
        ∃ q ∈ ts.tasks, q.2.UpdatedAt = p.2.UpdatedAt := by
  induction ops generalizing ts with
  | nil => exact fun p hp => Or.inr ⟨p, hp, rfl⟩
  | cons op ops ih =>
    intro p hp
    simp only [clockReadings, List.mem_append]
    rcases ih (step ts op).1 p hp with h | ⟨q, hq, hqp⟩
    · exact Or.inl (Or.inr h)
    · cases op with
      | create t d n₁ n₂ =>
        simp only [step, CreateTask] at hq
        rcases mem_mapAssign hq with hq | hq
        · subst hq
          exact Or.inl (Or.inl (by simp [stepReadings, ← hqp]))
        · exact Or.inr ⟨q, hq, hqp⟩
      | get id => exact Or.inr ⟨q, hq, hqp⟩
      | list => exact Or.inr ⟨q, hq, hqp⟩
      | update id t d c n =>
        simp only [step, UpdateTask] at hq
        cases hl : mapLookup ts.tasks id with
        | none =>
          simp only [hl] at hq
          exact Or.inr ⟨q, hq, hqp⟩
        | some old =>
          simp only [hl] at hq
          rcases mem_mapAssign hq with hq | hq
          · subst hq
            exact Or.inl (Or.inl (by simp [stepReadings, hl, ← hqp]))
          · exact Or.inr ⟨q, hq, hqp⟩
      | delete id =>
        simp only [step, DeleteTask] at hq
        cases hl : mapLookup ts.tasks id with
        | none =>
          simp only [hl] at hq
          exact Or.inr ⟨q, hq, hqp⟩
        | some old =>
          simp only [hl] at hq
          exact Or.inr ⟨q, (mem_mapDelete hq).1, hqp⟩

/-- C11 (amended): a successful `UpdateTask id` on a state reached from
`NewTaskService` sets `UpdatedAt` to the clock reading of the call and leaves
`CreatedAt` as it was; when the clock readings of the calls, this one
included, are non-decreasing, the new `UpdatedAt` is not before the one the
record had, and it is strictly after it exactly when the reading differs from
it. -/
theorem updateTask_updatedAt (ops : List Op) (id : Int) (title description : String)
    (completed : Bool) (now : Time)
    (h : id ∈ mapKeys (runState NewTaskService ops).tasks)
    (hc : (clockReadings NewTaskService
      (ops ++ [Op.update id title description completed now])).Pairwise
        (fun a b => a ≤ b)) :
    ∃ old new : Task,
      GetTask (runState NewTaskService ops) id = Except.ok old ∧
      (UpdateTask (runState NewTaskService ops) id title description completed now).2
        = Except.ok new ∧
      new.UpdatedAt = now ∧ new.CreatedAt = old.CreatedAt ∧
      old.UpdatedAt ≤ new.UpdatedAt ∧
      (old.UpdatedAt < new.UpdatedAt ↔ old.UpdatedAt ≠ now) := by
  cases hl : mapLookup (runState NewTaskService ops).tasks id with
  | none => exact absurd h ((mapLookup_eq_none_iff _ _).mp hl)
  | some old =>
    have hle : old.UpdatedAt ≤ now := by
      rw [clockReadings_append, List.pairwise_append] at hc
      have hnow : now ∈ clockReadings (runState NewTaskService ops)
          [Op.update id title description completed now] := by
        simp [clockReadings, stepReadings, hl]
      rcases updatedAt_mem_readings NewTaskService ops (id, old)
          (mapLookup_mem _ _ _ hl) with hm | ⟨q, hq, _⟩
      · exact hc.2.2 _ hm _ hnow
      · simp [NewTaskService] at hq
    refine ⟨old, ⟨old.ID, title, description, completed, old.CreatedAt, now⟩,
      ?_, ?_, rfl, rfl, hle, ?_⟩
    · simp only [GetTask, hl]
    · simp only [UpdateTask, hl]
    · exact ⟨fun hlt => ne_of_lt hlt, fun hne => lt_of_le_of_ne hle hne⟩

/-- The amended C11 on create (readings 3, 4), then update 1 at reading 9. -/
theorem updateTask_updatedAt_witness :
    ∃ old new : Task,
      GetTask (runState NewTaskService [Op.create "a" "b" 3 4]) 1 = Except.ok old ∧
      (UpdateTask (runState NewTaskService [Op.create "a" "b" 3 4]) 1 "c" "d" true 9).2
        = Except.ok new ∧
      new.UpdatedAt = 9 ∧ new.CreatedAt = old.CreatedAt ∧
      old.UpdatedAt ≤ new.UpdatedAt ∧
      (old.UpdatedAt < new.UpdatedAt ↔ old.UpdatedAt ≠ 9) :=
  updateTask_updatedAt [Op.create "a" "b" 3 4] 1 "c" "d" true 9 (by decide) (by decide)

/-- C11 as stated fails: when the clock has not advanced since the record
was last written (all readings are 5), a successful `UpdateTask 1` leaves
`UpdatedAt` at 5, not strictly greater than before. -/
theorem updateTask_updatedAt_not_strict :
    ∃ old new : Task,
      GetTask (runState NewTaskService [Op.create "a" "b" 5 5]) 1 = Except.ok old ∧
      (UpdateTask (runState NewTaskService [Op.create "a" "b" 5 5]) 1 "c" "d" true 5).2
        = Except.ok new ∧
      ¬ old.UpdatedAt < new.UpdatedAt :=
  ⟨{ ID := 1, Title := "a", Description := "b", Completed := false,
     CreatedAt := 5, UpdatedAt := 5 },
   { ID := 1, Title := "c", Description := "d", Completed := true,
     CreatedAt := 5, UpdatedAt := 5 }, by decide, by decide, by decide⟩

/-! ## What an update and a deletion leave alone -/

/-- C17: a successful `UpdateTask id` or `DeleteTask id` touches the record
of `id` only: for every other identifier `j` the record stored under `j` is
the same before and after, with all its fields; the identifiers present are
the same after an update and are the former ones without `id` after a
deletion; the counter `nextID` is unchanged by both. -/
theorem update_delete_frame (ts : TaskService) (id : Int) (title description : String)
    (completed : Bool) (now : Time) (h : id ∈ mapKeys ts.tasks) :
    (∀ j, j ≠ id →
        GetTask (UpdateTask ts id title description completed now).1 j = GetTask ts j) ∧
      mapKeys (UpdateTask ts id title description completed now).1.tasks
        = mapKeys ts.tasks ∧
      (UpdateTask ts id title description completed now).1.nextID = ts.nextID ∧
      (∀ j, j ≠ id → GetTask (DeleteTask ts id).1 j = GetTask ts j) ∧
      (∀ j, j ∈ mapKeys (DeleteTask ts id).1.tasks ↔ j ∈ mapKeys ts.tasks ∧ j ≠ id) ∧
      (DeleteTask ts id).1.nextID = ts.nextID := by
  cases hl : mapLookup ts.tasks id with
  | none => exact absurd h ((mapLookup_eq_none_iff _ _).mp hl)
  | some old =>
    refine ⟨fun j hj => ?_, ?_, ?_, fun j hj => ?_, fun j => ?_, ?_⟩
    · simp only [UpdateTask, hl, GetTask, mapLookup_mapAssign_ne _ _ _ _ hj]
    · simp only [UpdateTask, hl]
      exact mapKeys_mapAssign_of_mem _ _ _ h
    · simp only [UpdateTask, hl]
    · simp only [DeleteTask, hl, GetTask, mapLookup_mapDelete_ne _ _ _ hj]
    · simp only [DeleteTask, hl]
      exact mem_mapKeys_mapDelete _ _ _
    · simp only [DeleteTask, hl]

/-- C17 on the store holding the tasks 1 and 2: updating or deleting task 2
leaves task 1 and the counter alone. -/
theorem update_delete_frame_witness :
    (∀ j, j ≠ 2 →
        GetTask (UpdateTask (runState NewTaskService
          [Op.create "a" "" 0 0, Op.create "b" "" 1 1]) 2 "x" "y" true 7).1 j
          = GetTask (runState NewTaskService
            [Op.create "a" "" 0 0, Op.create "b" "" 1 1]) j) ∧
      mapKeys (UpdateTask (runState NewTaskService
          [Op.create "a" "" 0 0, Op.create "b" "" 1 1]) 2 "x" "y" true 7).1.tasks
        = mapKeys (runState NewTaskService
          [Op.create "a" "" 0 0, Op.create "b" "" 1 1]).tasks ∧
      (UpdateTask (runState NewTaskService
          [Op.create "a" "" 0 0, Op.create "b" "" 1 1]) 2 "x" "y" true 7).1.nextID
        = (runState NewTaskService
          [Op.create "a" "" 0 0, Op.create "b" "" 1 1]).nextID ∧
      (∀ j, j ≠ 2 →
        GetTask (DeleteTask (runState NewTaskService
          [Op.create "a" "" 0 0, Op.create "b" "" 1 1]) 2).1 j
          = GetTask (runState NewTaskService
            [Op.create "a" "" 0 0, Op.create "b" "" 1 1]) j) ∧
      (∀ j, j ∈ mapKeys (DeleteTask (runState NewTaskService
          [Op.create "a" "" 0 0, Op.create "b" "" 1 1]) 2).1.tasks ↔
        j ∈ mapKeys (runState NewTaskService
          [Op.create "a" "" 0 0, Op.create "b" "" 1 1]).tasks ∧ j ≠ 2) ∧
      (DeleteTask (runState NewTaskService
          [Op.create "a" "" 0 0, Op.create "b" "" 1 1]) 2).1.nextID
        = (runState NewTaskService
          [Op.create "a" "" 0 0, Op.create "b" "" 1 1]).nextID :=
  update_delete_frame
    (runState NewTaskService [Op.create "a" "" 0 0, Op.create "b" "" 1 1]) 2 "x" "y" true 7
    (by decide)

/-! ## The handlers -/

theorem atoi_of_not_decimal (s : String) (h : isDecimal s = false) : Atoi s = none := by
  unfold isDecimal at h
  unfold Atoi
  split at h <;> simp_all

/-- C14: for every request whose body decodes to a request with an empty
title, the handler `CreateTask` answers 400 Bad Request and so does the
handler `UpdateTask` when the `id` parameter parses; neither calls the store:
the service is in the state it was in, with no task created or changed and
the counter where it was. -/
theorem empty_title_bad_request (ts : TaskService) (r : Request)
    (decodeC : String → Option CreateTaskRequest)
    (decodeU : String → Option UpdateTaskRequest) (now₁ now₂ now : Time) :
    (∀ reqC : CreateTaskRequest, decodeC r.body = some reqC → reqC.Title = "" →
        (TaskHandler.CreateTask decodeC ts r now₁ now₂).2.status = 400 ∧
          (TaskHandler.CreateTask decodeC ts r now₁ now₂).1 = ts) ∧
      (∀ (reqU : UpdateTaskRequest) (id : Int), Atoi r.idParam = some id →
        decodeU r.body = some reqU → reqU.Title = "" →
        (TaskHandler.UpdateTask decodeU ts r now).2.status = 400 ∧
          (TaskHandler.UpdateTask decodeU ts r now).1 = ts) := by
  constructor
  · intro reqC hC hCt
    simp [TaskHandler.CreateTask, hC, hCt, httpError, StatusBadRequest]
  · intro reqU id hid hU hUt
    simp [TaskHandler.UpdateTask, hU, hUt, hid, httpError, StatusBadRequest]

/-- C14 on the requests of the tests of the repository: an empty title for
`POST /tasks`, where the route has no `id`, and for `PUT /tasks/1` on a store
holding task 1. -/
theorem empty_title_bad_request_witness :
    ((TaskHandler.CreateTask (fun _ => some ⟨"", "Описание без заголовка"⟩)
        NewTaskService ⟨"", "body"⟩ 1 1).2.status = 400 ∧
      (TaskHandler.CreateTask (fun _ => some ⟨"", "Описание без заголовка"⟩)
        NewTaskService ⟨"", "body"⟩ 1 1).1 = NewTaskService) ∧
      ((TaskHandler.UpdateTask (fun _ => some ⟨"", "Description without title", false⟩)
        (CreateTask NewTaskService "Original Task" "Original Description" 0 0).1
        ⟨"1", "body"⟩ 2).2.status = 400 ∧
      (TaskHandler.UpdateTask (fun _ => some ⟨"", "Description without title", false⟩)
        (CreateTask NewTaskService "Original Task" "Original Description" 0 0).1
        ⟨"1", "body"⟩ 2).1
        = (CreateTask NewTaskService "Original Task" "Original Description" 0 0).1) :=
  ⟨(empty_title_bad_request NewTaskService ⟨"", "body"⟩
      (fun _ => some ⟨"", "Описание без заголовка"⟩) (fun _ => none) 1 1 0).1
      ⟨"", "Описание без заголовка"⟩ rfl rfl,
    (empty_title_bad_request
      (CreateTask NewTaskService "Original Task" "Original Description" 0 0).1
      ⟨"1", "body"⟩ (fun _ => none)
      (fun _ => some ⟨"", "Description without title", false⟩) 0 0 2).2
      ⟨"", "Description without title", false⟩ 1 (by decide) rfl rfl⟩

/-- C15: for every value of the `id` parameter the handler `DeleteTask`
answers 400 and leaves the store as it was when the value is not a decimal
integer (the empty string is none) or `strconv.Atoi` fails on it otherwise,
answers 404 and leaves the store as it was when the value parses to an
identifier without a record, and answers 204 after removing the record when
the identifier has one; the handler `GetTask` for that identifier then
answers 404. -/
theorem deleteTask_handler_status (ts : TaskService) (r : Request) :
    isDecimal "" = false ∧
      (isDecimal r.idParam = false ∨ Atoi r.idParam = none →
        (TaskHandler.DeleteTask ts r).2.status = 400 ∧
          (TaskHandler.DeleteTask ts r).1 = ts) ∧
      (∀ id, Atoi r.idParam = some id → id ∉ mapKeys ts.tasks →
        (TaskHandler.DeleteTask ts r).2.status = 404 ∧
          (TaskHandler.DeleteTask ts r).1 = ts) ∧
      (∀ id, Atoi r.idParam = some id → id ∈ mapKeys ts.tasks →
        (TaskHandler.DeleteTask ts r).2.status = 204 ∧
          (TaskHandler.DeleteTask ts r).1 = (DeleteTask ts id).1 ∧
          id ∉ mapKeys (TaskHandler.DeleteTask ts r).1.tasks ∧
          ∀ r' : Request, Atoi r'.idParam = some id →
            (TaskHandler.GetTask (TaskHandler.DeleteTask ts r).1 r').status = 404) := by
  refine ⟨by decide, ?_, ?_, ?_⟩
  · intro h
    have hn : Atoi r.idParam = none := by
      rcases h with h | h
      · exact atoi_of_not_decimal _ h
      · exact h
    simp [TaskHandler.DeleteTask, hn, httpError, StatusBadRequest]
  · intro id hid habs
    have he := (deleteTask_error_iff ts id).mpr habs
    have hs : (DeleteTask ts id).1 = ts := by
      have hl := (mapLookup_eq_none_iff ts.tasks id).mpr habs
      simp only [DeleteTask, hl]
    simp [TaskHandler.DeleteTask, hid, he, hs, httpError, StatusNotFound]
  · intro id hid hmem
    have hok := (deleteTask_ok_iff ts id).mpr hmem
    have hs : (TaskHandler.DeleteTask ts r).1 = (DeleteTask ts id).1 := by
      simp [TaskHandler.DeleteTask, hid, hok]
    have hgone : id ∉ mapKeys (DeleteTask ts id).1.tasks := by
      cases hl : mapLookup ts.tasks id with
      | none => exact absurd hmem ((mapLookup_eq_none_iff _ _).mp hl)
      | some old =>
        simp only [DeleteTask, hl]
        exact fun hm => ((mem_mapKeys_mapDelete _ _ _).mp hm).2 rfl
    refine ⟨by simp [TaskHandler.DeleteTask, hid, hok, StatusNoContent], hs, ?_, ?_⟩
    · rw [hs]
      exact hgone
    · intro r' hr'
      rw [hs]
      have hg := (getTask_error_iff (DeleteTask ts id).1 id).mpr hgone
      simp [TaskHandler.GetTask, hr', hg, httpError, StatusNotFound]

/-- The handler tests of the repository for `DELETE /tasks/{id}`: 204 for
task 1 and 404 for a `GET` of it afterwards, 404 for `999` on an empty store,
400 for a missing parameter and for `invalid`. -/
theorem deleteTask_handler_tests :
    (TaskHandler.DeleteTask (CreateTask NewTaskService "Task to Delete" "Description" 0 0).1
        ⟨"1", ""⟩).2.status = 204 ∧
      (TaskHandler.GetTask
        (TaskHandler.DeleteTask
          (CreateTask NewTaskService "Task to Delete" "Description" 0 0).1 ⟨"1", ""⟩).1
        ⟨"1", ""⟩).status = 404 ∧
      (TaskHandler.DeleteTask NewTaskService ⟨"999", ""⟩).2
        = httpError "задача с ID 999 не найдена" 404 ∧
      (TaskHandler.DeleteTask NewTaskService ⟨"", ""⟩).2.status = 400 ∧
      (TaskHandler.DeleteTask NewTaskService ⟨"invalid", ""⟩).2.status = 400 := by
  decide

/-- C15 on the three requests of the tests: the parameter `invalid`, the
parameter `999` on an empty store, and the parameter `1` on a store holding
task 1. -/
theorem deleteTask_handler_status_witness :
    ((TaskHandler.DeleteTask NewTaskService ⟨"invalid", ""⟩).2.status = 400 ∧
        (TaskHandler.DeleteTask NewTaskService ⟨"invalid", ""⟩).1 = NewTaskService) ∧
      ((TaskHandler.DeleteTask NewTaskService ⟨"999", ""⟩).2.status = 404 ∧
        (TaskHandler.DeleteTask NewTaskService ⟨"999", ""⟩).1 = NewTaskService) ∧
      (TaskHandler.DeleteTask (CreateTask NewTaskService "Task to Delete" "Description" 0 0).1
          ⟨"1", ""⟩).2.status = 204 :=
  ⟨(deleteTask_handler_status NewTaskService ⟨"invalid", ""⟩).2.1 (Or.inl (by decide)),
    (deleteTask_handler_status NewTaskService ⟨"999", ""⟩).2.2.1 999 (by decide) (by decide),
    ((deleteTask_handler_status
      (CreateTask NewTaskService "Task to Delete" "Description" 0 0).1 ⟨"1", ""⟩).2.2.2 1
      (by decide) (by decide)).1⟩

/-! ## The two services -/

theorem test1_mapLookup (m : List (Int × Test1.Task)) (k : Int) :
    mapLookup (m.map (fun p => (p.1, p.2.toMain))) k
      = (Test1.mapLookup m k).map Test1.Task.toMain := by
  induction m with
  | nil => rfl
  | cons p m ih =>
    obtain ⟨k', v⟩ := p
    by_cases h : k' = k
    · simp [mapLookup, Test1.mapLookup, h]
    · simp [mapLookup, Test1.mapLookup, h, ih]

theorem test1_mapAssign (m : List (Int × Test1.Task)) (k : Int) (v : Test1.Task) :
    mapAssign (m.map (fun p => (p.1, p.2.toMain))) k v.toMain
      = (Test1.mapAssign m k v).map (fun p => (p.1, p.2.toMain)) := by
  induction m with
  | nil => rfl
  | cons p m ih =>
    obtain ⟨k', v'⟩ := p
    by_cases h : k' = k
    · simp [mapAssign, Test1.mapAssign, h]
    · simp [mapAssign, Test1.mapAssign, h, ih]

theorem test1_mapDelete (m : List (Int × Test1.Task)) (k : Int) :
    mapDelete (m.map (fun p => (p.1, p.2.toMain))) k
      = (Test1.mapDelete m k).map (fun p => (p.1, p.2.toMain)) := by
  induction m with
  | nil => rfl
  | cons p m ih =>
    obtain ⟨k', v'⟩ := p
    by_cases h : k' = k
    · simp [mapDelete, Test1.mapDelete, h, ih]
    · simp [mapDelete, Test1.mapDelete, h, ih]

theorem test1_getTask (ts : Test1.TaskService) (id : Int) :
    GetTask ts.toMain id = Test1.resultToMain (Test1.GetTask ts id) := by
  simp only [GetTask, Test1.GetTask, Test1.TaskService.toMain, test1_mapLookup, notFound]
  cases Test1.mapLookup ts.tasks id <;> rfl

theorem test1_getAllTasks (ts : Test1.TaskService) :
    GetAllTasks ts.toMain = (Test1.GetAllTasks ts).map Test1.Task.toMain := by
  simp [GetAllTasks, Test1.GetAllTasks, Test1.TaskService.toMain]

theorem test1_createTask (ts : Test1.TaskService) (title description : String)
    (now₁ now₂ : Time) :
    CreateTask ts.toMain title description now₁ now₂
      = ((Test1.CreateTask ts title description now₁ now₂).1.toMain,
          (Test1.CreateTask ts title description now₁ now₂).2.toMain) := by
  simp only [CreateTask, Test1.CreateTask, Test1.TaskService.toMain, ← test1_mapAssign]
  rfl

theorem test1_updateTask (ts : Test1.TaskService) (id : Int) (title description : String)
    (completed : Bool) (now : Time) :
    UpdateTask ts.toMain id title description completed now
      = ((Test1.UpdateTask ts id title description completed now).1.toMain,
          Test1.resultToMain (Test1.UpdateTask ts id title description completed now).2) := by
  simp only [UpdateTask, Test1.UpdateTask, Test1.TaskService.toMain, test1_mapLookup, notFound]
  cases Test1.mapLookup ts.tasks id with
  | none => rfl
  | some old =>
    simp only [Option.map_some', ← test1_mapAssign]
    rfl

theorem test1_deleteTask (ts : Test1.TaskService) (id : Int) :
    DeleteTask ts.toMain id
      = ((Test1.DeleteTask ts id).1.toMain, (Test1.DeleteTask ts id).2) := by
  simp only [DeleteTask, Test1.DeleteTask, Test1.TaskService.toMain, test1_mapLookup, notFound]
  cases Test1.mapLookup ts.tasks id with
  | none => rfl
  | some old =>
    simp only [Option.map_some', test1_mapDelete]

theorem test1_step (ts : Test1.TaskService) (op : Op) :
    (step ts.toMain op).1 = (Test1.step ts op).1.toMain ∧
      RetEquiv (Test1.step ts op).2 (step ts.toMain op).2 := by
  cases op with
  | create t d n₁ n₂ =>
    simp only [step, Test1.step, test1_createTask, RetEquiv, and_self]
  | get id =>
    simp only [step, Test1.step, test1_getTask, RetEquiv, and_self]
  | list =>
    simp only [step, Test1.step, test1_getAllTasks, RetEquiv, true_and]
    exact List.Perm.refl _
  | update id t d c n =>
    simp only [step, Test1.step, test1_updateTask, RetEquiv, and_self]
  | delete id =>
    simp only [step, Test1.step, test1_deleteTask, RetEquiv, and_self]

theorem test1_run (ts : Test1.TaskService) (ops : List Op) :
    List.Forall₂ RetEquiv (Test1.runRets ts ops) (runRets ts.toMain ops) ∧
      runState ts.toMain ops = (Test1.runState ts ops).toMain := by
  induction ops generalizing ts with
  | nil => exact ⟨List.Forall₂.nil, rfl⟩
  | cons op ops ih =>
    obtain ⟨hs, hr⟩ := test1_step ts op
    simp only [runRets, Test1.runRets, runState, Test1.runState, hs]
    exact ⟨List.Forall₂.cons hr (ih _).1, (ih _).2⟩

/-- C16: the service of `test1/main.go` and the service of `services.go`,
each started by its `NewTaskService` and given the same sequence of calls
with the same clock readings, return the same values at every step: the same
tasks field by field, the same errors with the same messages, the same tasks
in a list up to the order; and they end in the same state. -/
theorem test1_service_equivalent (ops : List Op) :
    List.Forall₂ RetEquiv (Test1.runRets Test1.NewTaskService ops)
        (runRets NewTaskService ops) ∧
      (Test1.runState Test1.NewTaskService ops).toMain = runState NewTaskService ops :=
  ⟨(test1_run Test1.NewTaskService ops).1, (test1_run Test1.NewTaskService ops).2.symm⟩

/-! ## Returned tasks are pointers -/

theorem mem_getElem?_modifyCell_self (f : Task → Task) (heap : List Task) (a : Addr) :
    (Mem.modifyCell f heap a)[a]? = (heap[a]?).map f := by
  induction heap generalizing a with
  | nil => simp [Mem.modifyCell]
  | cons task heap ih =>
    cases a with
    | zero => simp [Mem.modifyCell]
    | succ a => simp [Mem.modifyCell, ih]

theorem mem_getElem?_modifyCell_ne (f : Task → Task) (heap : List Task) (a b : Addr)
    (h : b ≠ a) : (Mem.modifyCell f heap a)[b]? = heap[b]? := by
  induction heap generalizing a b with
  | nil => simp [Mem.modifyCell]
  | cons task heap ih =>
    cases a with
    | zero =>
      cases b with
      | zero => exact absurd rfl h
      | succ b => simp [Mem.modifyCell]
    | succ a =>
      cases b with
      | zero => simp [Mem.modifyCell]
      | succ b =>
        have hb : b ≠ a := fun e => h (by rw [e])
        simp [Mem.modifyCell, ih a b hb]

theorem mem_length_modifyCell (f : Task → Task) (heap : List Task) (a : Addr) :
    (Mem.modifyCell f heap a).length = heap.length := by
  induction heap generalizing a with
  | nil => simp [Mem.modifyCell]
  | cons task heap ih =>
    cases a with
    | zero => simp [Mem.modifyCell]
    | succ a => simp [Mem.modifyCell, ih]

theorem mem_mapLookup_mapAssign_self (m : List (Int × Addr)) (k : Int) (a : Addr) :
    Mem.mapLookup (Mem.mapAssign m k a) k = some a := by
  induction m with
  | nil => simp [Mem.mapAssign, Mem.mapLookup]
  | cons p m ih =>
    obtain ⟨k', a'⟩ := p
    by_cases h : k' = k
    · simp [Mem.mapAssign, Mem.mapLookup, h]
    · simp [Mem.mapAssign, Mem.mapLookup, h, ih]

theorem mem_mapLookup_mem (m : List (Int × Addr)) (k : Int) (a : Addr)
    (h : Mem.mapLookup m k = some a) : (k, a) ∈ m := by
  induction m with
  | nil => simp [Mem.mapLookup] at h
  | cons p m ih =>
    obtain ⟨k', a'⟩ := p
    by_cases hk : k' = k
    · simp [Mem.mapLookup, hk] at h
      simp [hk, h]
    · simp [Mem.mapLookup, hk] at h
      exact List.mem_cons_of_mem _ (ih h)

theorem mem_mapLookup_of_mem (m : List (Int × Addr)) (k : Int) (a : Addr)
    (hn : (m.map Prod.fst).Nodup) (h : (k, a) ∈ m) : Mem.mapLookup m k = some a := by
  induction m with
  | nil => simp at h
  | cons p m ih =>
    obtain ⟨k', a'⟩ := p
    have hn' : k' ∉ m.map Prod.fst ∧ (m.map Prod.fst).Nodup := by simpa using hn
    rcases List.mem_cons.mp h with h | h
    · injection h with h₁ h₂
      simp [Mem.mapLookup, h₁, h₂]
    · have hk : ¬ k' = k := fun e => hn'.1 (e ▸ List.mem_map.mpr ⟨(k, a), h, rfl⟩)
      simp [Mem.mapLookup, hk, ih hn'.2 h]

/-- The pointers `GetAllTasks` returns are the pointers `GetTask` returns:
in a map without repeated keys an address is listed exactly when `GetTask`
returns it for some identifier. -/
theorem mem_getAllTasks_pointers (ms : Mem.TaskService)
    (hn : (ms.tasks.map Prod.fst).Nodup)
    (b : Addr) :
    b ∈ Mem.GetAllTasks ms ↔ ∃ k : Int, Mem.GetTask ms k = Except.ok b := by
  constructor
  · intro hb
    obtain ⟨p, hp, rfl⟩ := List.mem_map.mp hb
    exact ⟨p.1, by simp only [Mem.GetTask, mem_mapLookup_of_mem _ _ _ hn hp]⟩
  · rintro ⟨k, hk⟩
    unfold Mem.GetTask at hk
    cases hl : Mem.mapLookup ms.tasks k with
    | none => simp [hl] at hk
    | some c =>
      simp only [hl, Except.ok.injEq] at hk
      subst hk
      exact List.mem_map.mpr ⟨(k, c), mem_mapLookup_mem _ _ _ hl, rfl⟩

/-- What the methods hand out is the pointer the map holds, not a copy.  For
a pointer `a` that `GetTask id` returns and the task `old` it points to:
`GetAllTasks` lists the same pointer, before and after an update and after a
caller has written through it; `UpdateTask id` returns the same pointer and
the task read through `a` afterwards has the new title, description, flag and
`UpdatedAt` (and the old `ID` and `CreatedAt`); `DeleteTask id` leaves the
task read through `a` as it was; an assignment by the caller through `a`
changes what `GetTask id` and `GetAllTasks` give afterwards; and the pointer
`CreateTask` returns is the one `GetTask` returns for the new identifier and
one of those `GetAllTasks` lists. -/
theorem returned_task_is_pointer (ms : Mem.TaskService) (id : Int) (a : Addr) (old : Task)
    (title description : String) (completed : Bool) (now now₁ now₂ : Time)
    (f : Task → Task)
    (hget : Mem.GetTask ms id = Except.ok a) (hold : Mem.load ms a = some old) :
    a ∈ Mem.GetAllTasks ms ∧
      (Mem.UpdateTask ms id title description completed now).2 = Except.ok a ∧
      Mem.GetAllTasks (Mem.UpdateTask ms id title description completed now).1
        = Mem.GetAllTasks ms ∧
      Mem.load (Mem.UpdateTask ms id title description completed now).1 a
        = some { ID := old.ID, Title := title, Description := description,
                 Completed := completed, CreatedAt := old.CreatedAt, UpdatedAt := now } ∧
      Mem.load (Mem.DeleteTask ms id).1 a = some old ∧
      Mem.GetTask (Mem.write ms a f) id = Except.ok a ∧
      Mem.GetAllTasks (Mem.write ms a f) = Mem.GetAllTasks ms ∧
      Mem.load (Mem.write ms a f) a = some (f old) ∧
      Mem.GetTask (Mem.CreateTask ms title description now₁ now₂).1 ms.nextID
        = Except.ok (Mem.CreateTask ms title description now₁ now₂).2 ∧
      (Mem.CreateTask ms title description now₁ now₂).2
        ∈ Mem.GetAllTasks (Mem.CreateTask ms title description now₁ now₂).1 ∧
      Mem.load (Mem.CreateTask ms title description now₁ now₂).1
          (Mem.CreateTask ms title description now₁ now₂).2
        = some { ID := ms.nextID, Title := title, Description := description,
                 Completed := false, CreatedAt := now₁, UpdatedAt := now₂ } := by
  have hl : Mem.mapLookup ms.tasks id = some a := by
    unfold Mem.GetTask at hget
    cases h : Mem.mapLookup ms.tasks id with
    | none => simp [h] at hget
    | some b =>
      simp only [h, Except.ok.injEq] at hget
      rw [hget]
  simp only [Mem.load] at hold
  refine ⟨?_, ?_, ?_, ?_, ?_, ?_, ?_, ?_, ?_, ?_, ?_⟩
  · exact List.mem_map.mpr ⟨(id, a), mem_mapLookup_mem _ _ _ hl, rfl⟩
  · simp only [Mem.UpdateTask, hl]
  · simp only [Mem.UpdateTask, hl, Mem.GetAllTasks]
  · simp only [Mem.UpdateTask, hl, Mem.load, mem_getElem?_modifyCell_self, hold,
      Option.map_some']
  · simp only [Mem.DeleteTask, hl, Mem.load, hold]
  · simp only [Mem.GetTask, Mem.write, hl]
  · simp only [Mem.write, Mem.GetAllTasks]
  · simp only [Mem.write, Mem.load, mem_getElem?_modifyCell_self, hold, Option.map_some']
  · simp only [Mem.GetTask, Mem.CreateTask, mem_mapLookup_mapAssign_self]
  · have hg : Mem.mapLookup (Mem.CreateTask ms title description now₁ now₂).1.tasks
        ms.nextID = some (Mem.CreateTask ms title description now₁ now₂).2 := by
      simp only [Mem.CreateTask, mem_mapLookup_mapAssign_self]
    exact List.mem_map.mpr ⟨(ms.nextID, _), mem_mapLookup_mem _ _ _ hg, rfl⟩
  · simp [Mem.CreateTask, Mem.load]

/-- C12: the code breaks the claim on the calls of its own test
`TestTaskService_UpdateTask`.  A caller keeps the task `CreateTask` returned;
`GetTask 1` and `GetAllTasks` hand out that same task, the pointer 0.  After
`UpdateTask 1`, which returns the pointer 0 again, the task the caller has
kept, and the task of the list it obtained before, read as the updated
record: new title, description, flag and `UpdatedAt`.  And once the caller
assigns to the title of the task it holds, `GetTask 1` and `GetAllTasks` give
a task with that title.  So a returned task is not a snapshot. -/
theorem returned_task_not_snapshot :
    (Mem.CreateTask Mem.NewTaskService "Исходная задача" "Исходное описание" 1 2).2 = 0 ∧
      Mem.GetTask
          (Mem.CreateTask Mem.NewTaskService "Исходная задача" "Исходное описание" 1 2).1 1
        = Except.ok 0 ∧
      Mem.GetAllTasks
          (Mem.CreateTask Mem.NewTaskService "Исходная задача" "Исходное описание" 1 2).1
        = [0] ∧
      Mem.load
          (Mem.CreateTask Mem.NewTaskService "Исходная задача" "Исходное описание" 1 2).1 0
        = some ⟨1, "Исходная задача", "Исходное описание", false, 1, 2⟩ ∧
      (Mem.UpdateTask
          (Mem.CreateTask Mem.NewTaskService "Исходная задача" "Исходное описание" 1 2).1
          1 "Обновленная задача" "Обновленное описание" true 5).2 = Except.ok 0 ∧
      Mem.load
          (Mem.UpdateTask
            (Mem.CreateTask Mem.NewTaskService "Исходная задача" "Исходное описание" 1 2).1
            1 "Обновленная задача" "Обновленное описание" true 5).1 0
        = some ⟨1, "Обновленная задача", "Обновленное описание", true, 1, 5⟩ ∧
      (Mem.GetAllTasks
          (Mem.CreateTask Mem.NewTaskService "Исходная задача" "Исходное описание" 1 2).1).map
          (Mem.load
            (Mem.UpdateTask
              (Mem.CreateTask Mem.NewTaskService "Исходная задача" "Исходное описание"
                1 2).1
              1 "Обновленная задача" "Обновленное описание" true 5).1)
        = [some ⟨1, "Обновленная задача", "Обновленное описание", true, 1, 5⟩] ∧
      Mem.GetTask
          (Mem.write
            (Mem.CreateTask Mem.NewTaskService "Исходная задача" "Исходное описание" 1 2).1
            0 (fun task => { task with Title := "mine" })) 1 = Except.ok 0 ∧
      (Mem.GetAllTasks
          (Mem.write
            (Mem.CreateTask Mem.NewTaskService "Исходная задача" "Исходное описание" 1 2).1
            0 (fun task => { task with Title := "mine" }))).map
          (Mem.load
            (Mem.write
              (Mem.CreateTask Mem.NewTaskService "Исходная задача" "Исходное описание"
                1 2).1
              0 (fun task => { task with Title := "mine" })))
        = [some ⟨1, "mine", "Исходное описание", false, 1, 2⟩] := by
  decide

/-! ## Concurrent calls of `CreateTask` -/

theorem pcCount_set (w : Pc → Nat) (gs : List Goroutine) (i : Nat) (g g' : Goroutine)
    (h : gs[i]? = some g) :
    pcCount w (gs.set i g') + w g.pc = pcCount w gs + w g'.pc := by
  induction gs generalizing i with
  | nil => simp at h
  | cons x gs ih =>
    cases i with
    | zero =>
      simp only [List.getElem?_cons_zero, Option.some.injEq] at h
      subst h
      simp only [List.set_cons_zero, pcCount, List.map_cons, List.sum_cons]
      omega
    | succ i =>
      simp only [List.getElem?_cons_succ] at h
      have := ih i h
      simp only [pcCount] at this
      simp only [List.set_cons_succ, pcCount, List.map_cons, List.sum_cons]
      omega

theorem pcCount_le (w : Pc → Nat) (gs : List Goroutine) (i : Nat) (g : Goroutine)
    (h : gs[i]? = some g) : w g.pc ≤ pcCount w gs := by
  induction gs generalizing i with
  | nil => simp at h
  | cons x gs ih =>
    cases i with
    | zero =>
      simp only [List.getElem?_cons_zero, Option.some.injEq] at h
      subst h
      simp only [pcCount, List.map_cons, List.sum_cons]
      omega
    | succ i =>
      simp only [List.getElem?_cons_succ] at h
      have := ih i h
      simp only [pcCount] at this
      simp only [pcCount, List.map_cons, List.sum_cons]
      omega

theorem pcCount_add (w w₁ w₂ : Pc → Nat) (hw : ∀ p, w p = w₁ p + w₂ p)
    (gs : List Goroutine) : pcCount w gs = pcCount w₁ gs + pcCount w₂ gs := by
  induction gs with
  | nil => simp [pcCount]
  | cons x gs ih =>
    simp only [pcCount] at ih
    simp only [pcCount, List.map_cons, List.sum_cons, hw x.pc, ih]
    omega

theorem pcCount_eq_zero (w : Pc → Nat) (gs : List Goroutine)
    (h : ∀ (i : Nat) (g : Goroutine), gs[i]? = some g → w g.pc = 0) :
    pcCount w gs = 0 := by
  induction gs with
  | nil => simp [pcCount]
  | cons x gs ih =>
    have hx := h 0 x (by simp)
    have := ih (fun i g hg => h (i + 1) g (by simpa using hg))
    simp only [pcCount] at this
    simp only [pcCount, List.map_cons, List.sum_cons, hx, this]

theorem pcCount_pos (w : Pc → Nat) (gs : List Goroutine) (h : 0 < pcCount w gs) :
    ∃ (i : Nat) (g : Goroutine), gs[i]? = some g ∧ 0 < w g.pc := by
  by_contra hne
  have hz : pcCount w gs = 0 := by
    apply pcCount_eq_zero
    intro i g hg
    by_contra hw
    exact hne ⟨i, g, hg, Nat.pos_of_ne_zero hw⟩
  omega

theorem pcCount_le_length (w : Pc → Nat) (hw : ∀ p, w p ≤ 1) (gs : List Goroutine) :
    pcCount w gs ≤ gs.length := by
  induction gs with
  | nil => simp [pcCount]
  | cons x gs ih =>
    have := hw x.pc
    simp only [pcCount] at ih
    simp only [pcCount, List.map_cons, List.sum_cons, List.length_cons]
    omega

theorem pcCount_const (w : Pc → Nat) (p : Pc) (gs : List Goroutine)
    (h : ∀ g ∈ gs, g.pc = p) : pcCount w gs = gs.length * w p := by
  induction gs with
  | nil => simp [pcCount]
  | cons x gs ih =>
    have hx := h x (by simp)
    have := ih (fun g hg => h g (List.mem_cons_of_mem _ hg))
    simp only [pcCount] at this
    simp only [pcCount, List.map_cons, List.sum_cons, List.length_cons, hx, this]
    ring

/-- Mutual exclusion: under the invariant two goroutines that are both
inside the method, between `Lock` and `Unlock`, are the same goroutine. -/
theorem inv_exclusive (s : Sys) (h : s.Inv) (i j : Nat) (g g' : Goroutine)
    (hi : s.gs[i]? = some g) (hj : s.gs[j]? = some g')
    (hg : wInside g.pc = 1) (hg' : wInside g'.pc = 1) : i = j := by
  by_contra hne
  have h₁ := h.1
  have hset := pcCount_set wInside s.gs i g { g with pc := Pc.done } hi
  have hj' : (s.gs.set i { g with pc := Pc.done })[j]? = some g' := by
    rw [List.getElem?_set_ne hne]
    exact hj
  have hle := pcCount_le wInside _ j g' hj'
  have hd : wInside ({ g with pc := Pc.done } : Goroutine).pc = 0 := rfl
  rw [hd] at hset
  split at h₁ <;> omega

theorem wInside_of_assign {p : Pc} (h : p = Pc.assign) : wInside p = 1 := by
  subst h
  rfl

theorem wInside_of_incr {p : Pc} (h : p = Pc.incr) : wInside p = 1 := by
  subst h
  rfl

theorem wAssigned_split (p : Pc) : wAssigned p = wIncremented p + wIncr p := by
  cases p <;> rfl

theorem pc_eq_of_wIncr {p : Pc} (h : wIncr p ≠ 0) : p = Pc.incr := by
  cases p <;> simp [wIncr] at h ⊢

theorem sys_step_length (s : Sys) (i : Nat) : (s.step i).gs.length = s.gs.length := by
  cases hg : s.gs[i]? with
  | none => simp only [Sys.step, hg]
  | some g =>
    cases hpc : g.pc with
    | lock =>
      by_cases hl : s.locked = true
      · simp only [Sys.step, hg, hpc, hl, if_true]
      · simp only [Sys.step, hg, hpc, hl]
        simp
    | build => simp only [Sys.step, hg, hpc, List.length_set]
    | assign =>
      cases hgt : g.task with
      | none => simp only [Sys.step, hg, hpc, hgt]
      | some task => simp only [Sys.step, hg, hpc, hgt, List.length_set]
    | incr => simp only [Sys.step, hg, hpc, List.length_set]
    | unlock => simp only [Sys.step, hg, hpc, List.length_set]
    | done => simp only [Sys.step, hg, hpc]

/-- Every statement of every goroutine preserves the invariant, as long as
the counter stays within the 64-bit range. -/
theorem inv_step (s : Sys) (i : Nat)
    (hb : (s.gs.length : Int) + 2 < 9223372036854775808) (hinv : s.Inv) :
    (s.step i).Inv := by
  obtain ⟨h₁, h₂, h₃, h₄, h₅⟩ := hinv
  cases hg : s.gs[i]? with
  | none =>
    have hstep : s.step i = s := by simp only [Sys.step, hg]
    rw [hstep]
    exact ⟨h₁, h₂, h₃, h₄, h₅⟩
  | some g =>
    have hmem : g ∈ s.gs := List.getElem?_mem hg
    cases hpc : g.pc with
    | lock =>
      by_cases hl : s.locked = true
      · have hstep : s.step i = s := by simp only [Sys.step, hg, hpc, hl, if_true]
        rw [hstep]
        exact ⟨h₁, h₂, h₃, h₄, h₅⟩
      · have hstep : s.step i
            = { s with locked := true, gs := s.gs.set i { g with pc := Pc.build } } := by
          simp only [Sys.step, hg, hpc, hl]
          rfl
        have e₁ := pcCount_set wInside s.gs i g { g with pc := Pc.build } hg
        have e₂ := pcCount_set wAssigned s.gs i g { g with pc := Pc.build } hg
        have e₃ := pcCount_set wIncremented s.gs i g { g with pc := Pc.build } hg
        rw [hpc] at e₁ e₂ e₃
        simp only [wInside, wAssigned, wIncremented] at e₁ e₂ e₃
        simp only [hl] at h₁
        rw [hstep]
        refine ⟨?_, ?_, ?_, ?_, h₅⟩
        · show pcCount wInside (s.gs.set i { g with pc := Pc.build }) = _
          simp only [if_true]
          simp at h₁
          omega
        · show mapKeys s.store.tasks = (List.range (pcCount wAssigned
            (s.gs.set i { g with pc := Pc.build }))).map _
          rw [show pcCount wAssigned (s.gs.set i { g with pc := Pc.build })
            = pcCount wAssigned s.gs by omega]
          exact h₂
        · show s.store.nextID = ((pcCount wIncremented
            (s.gs.set i { g with pc := Pc.build }) : Nat) : Int) + 1
          rw [show pcCount wIncremented (s.gs.set i { g with pc := Pc.build })
            = pcCount wIncremented s.gs by omega]
          exact h₃
        · intro g'' hg'' hpc''
          rcases List.mem_or_eq_of_mem_set hg'' with hm | he
          · exact h₄ g'' hm hpc''
          · subst he
            cases hpc''
    | build =>
      have hstep : s.step i
          = { s with
              gs := s.gs.set i
                { g with
                  pc := Pc.assign
                  task := some
                    { ID := s.store.nextID
                      Title := g.title
                      Description := g.description
                      Completed := false
                      CreatedAt := g.now₁
                      UpdatedAt := g.now₂ } } } := by
        simp only [Sys.step, hg, hpc]
      generalize hg' : ({ g with
          pc := Pc.assign
          task := some
            { ID := s.store.nextID
              Title := g.title
              Description := g.description
              Completed := false
              CreatedAt := g.now₁
              UpdatedAt := g.now₂ } } : Goroutine) = g' at hstep
      have hpc' : g'.pc = Pc.assign := by rw [← hg']
      have htask' : ∃ task, g'.task = some task ∧ task.ID = s.store.nextID := by
        rw [← hg']
        exact ⟨_, rfl, rfl⟩
      have e₁ := pcCount_set wInside s.gs i g g' hg
      have e₂ := pcCount_set wAssigned s.gs i g g' hg
      have e₃ := pcCount_set wIncremented s.gs i g g' hg
      rw [hpc, hpc'] at e₁ e₂ e₃
      simp only [wInside, wAssigned, wIncremented] at e₁ e₂ e₃
      rw [hstep]
      refine ⟨?_, ?_, ?_, ?_, h₅⟩
      · show pcCount wInside (s.gs.set i g') = _
        rw [show pcCount wInside (s.gs.set i g') = pcCount wInside s.gs by omega]
        exact h₁
      · show mapKeys s.store.tasks = (List.range (pcCount wAssigned (s.gs.set i g'))).map _
        rw [show pcCount wAssigned (s.gs.set i g') = pcCount wAssigned s.gs by omega]
        exact h₂
      · show s.store.nextID = ((pcCount wIncremented (s.gs.set i g') : Nat) : Int) + 1
        rw [show pcCount wIncremented (s.gs.set i g') = pcCount wIncremented s.gs by omega]
        exact h₃
      · intro g'' hg'' hpc''
        rcases List.mem_or_eq_of_mem_set hg'' with hm | he
        · exact h₄ g'' hm hpc''
        · subst he
          exact htask'
    | assign =>
      obtain ⟨task, htask, hid⟩ := h₄ g hmem hpc
      have hstep : s.step i
          = { s with
              store := { s.store with
                tasks := mapAssign s.store.tasks s.store.nextID task }
              gs := s.gs.set i { g with pc := Pc.incr } } := by
        simp only [Sys.step, hg, hpc, htask]
      have e₁ := pcCount_set wInside s.gs i g { g with pc := Pc.incr } hg
      have e₂ := pcCount_set wAssigned s.gs i g { g with pc := Pc.incr } hg
      have e₃ := pcCount_set wIncremented s.gs i g { g with pc := Pc.incr } hg
      rw [hpc] at e₁ e₂ e₃
      simp only [wInside, wAssigned, wIncremented] at e₁ e₂ e₃
      have hz : pcCount wIncr s.gs = 0 := by
        apply pcCount_eq_zero
        intro j g' hj
        by_contra hne
        have hincr := pc_eq_of_wIncr hne
        have hij := inv_exclusive s ⟨h₁, h₂, h₃, h₄, h₅⟩ i j g g' hg hj
          (wInside_of_assign hpc) (wInside_of_incr hincr)
        subst hij
        rw [hg] at hj
        injection hj with hj
        subst hj
        rw [hpc] at hincr
        cases hincr
      have hsplit := pcCount_add wAssigned wIncremented wIncr wAssigned_split s.gs
      have hnext : s.store.nextID = ((pcCount wAssigned s.gs : Nat) : Int) + 1 := by
        rw [h₃]
        congr 2
        omega
      have hfresh : s.store.nextID ∉ mapKeys s.store.tasks := by
        rw [h₂, hnext]
        intro hm
        obtain ⟨x, hx, he⟩ := List.mem_map.mp hm
        have := List.mem_range.mp hx
        omega
      rw [hstep]
      refine ⟨?_, ?_, ?_, ?_, ?_⟩
      · show pcCount wInside (s.gs.set i { g with pc := Pc.incr }) = _
        rw [show pcCount wInside (s.gs.set i { g with pc := Pc.incr })
          = pcCount wInside s.gs by omega]
        exact h₁
      · show mapKeys (mapAssign s.store.tasks s.store.nextID task)
          = (List.range (pcCount wAssigned (s.gs.set i { g with pc := Pc.incr }))).map _
        rw [show pcCount wAssigned (s.gs.set i { g with pc := Pc.incr })
          = pcCount wAssigned s.gs + 1 by omega,
          mapKeys_mapAssign_of_not_mem _ _ _ hfresh, List.range_succ, List.map_append,
          ← h₂, hnext]
        rfl
      · show s.store.nextID = ((pcCount wIncremented
          (s.gs.set i { g with pc := Pc.incr }) : Nat) : Int) + 1
        rw [show pcCount wIncremented (s.gs.set i { g with pc := Pc.incr })
          = pcCount wIncremented s.gs by omega]
        exact h₃
      · intro g'' hg'' hpc''
        rcases List.mem_or_eq_of_mem_set hg'' with hm | he
        · exact h₄ g'' hm hpc''
        · subst he
          cases hpc''
      · intro k task' hm
        rcases mem_mapAssign hm with hm | hm
        · injection hm with hk ht
          rw [hk, ht]
          exact hid
        · exact h₅ k task' hm
    | incr =>
      have hstep : s.step i
          = { s with
              store := { s.store with nextID := wrapInt (s.store.nextID + 1) }
              gs := s.gs.set i { g with pc := Pc.unlock } } := by
        simp only [Sys.step, hg, hpc]
      have e₁ := pcCount_set wInside s.gs i g { g with pc := Pc.unlock } hg
      have e₂ := pcCount_set wAssigned s.gs i g { g with pc := Pc.unlock } hg
      have e₃ := pcCount_set wIncremented s.gs i g { g with pc := Pc.unlock } hg
      rw [hpc] at e₁ e₂ e₃
      simp only [wInside, wAssigned, wIncremented] at e₁ e₂ e₃
      have hlen := pcCount_le_length wIncremented (by intro p; cases p <;> simp [wIncremented])
        (s.gs.set i { g with pc := Pc.unlock })
      rw [List.length_set] at hlen
      rw [hstep]
      refine ⟨?_, ?_, ?_, ?_, h₅⟩
      · show pcCount wInside (s.gs.set i { g with pc := Pc.unlock }) = _
        rw [show pcCount wInside (s.gs.set i { g with pc := Pc.unlock })
          = pcCount wInside s.gs by omega]
        exact h₁
      · show mapKeys s.store.tasks = (List.range (pcCount wAssigned
          (s.gs.set i { g with pc := Pc.unlock }))).map _
        rw [show pcCount wAssigned (s.gs.set i { g with pc := Pc.unlock })
          = pcCount wAssigned s.gs by omega]
        exact h₂
      · show wrapInt (s.store.nextID + 1) = ((pcCount wIncremented
          (s.gs.set i { g with pc := Pc.unlock }) : Nat) : Int) + 1
        rw [h₃, wrapInt_of_inRange _ (by omega) (by omega)]
        omega
      · intro g'' hg'' hpc''
        rcases List.mem_or_eq_of_mem_set hg'' with hm | he
        · obtain ⟨j, hj⟩ := List.getElem?_of_mem hm
          have hij := inv_exclusive s ⟨h₁, h₂, h₃, h₄, h₅⟩ i j g g'' hg hj
            (wInside_of_incr hpc) (wInside_of_assign hpc'')
          subst hij
          rw [hg] at hj
          injection hj with hj
          subst hj
          rw [hpc] at hpc''
          cases hpc''
        · subst he
          cases hpc''
    | unlock =>
      have hstep : s.step i
          = { s with locked := false, gs := s.gs.set i { g with pc := Pc.done } } := by
        simp only [Sys.step, hg, hpc]
      have e₁ := pcCount_set wInside s.gs i g { g with pc := Pc.done } hg
      have e₂ := pcCount_set wAssigned s.gs i g { g with pc := Pc.done } hg
      have e₃ := pcCount_set wIncremented s.gs i g { g with pc := Pc.done } hg
      rw [hpc] at e₁ e₂ e₃
      simp only [wInside, wAssigned, wIncremented] at e₁ e₂ e₃
      rw [hstep]
      refine ⟨?_, ?_, ?_, ?_, h₅⟩
      · show pcCount wInside (s.gs.set i { g with pc := Pc.done }) = _
        simp only [Bool.false_eq_true, if_false]
        split at h₁ <;> omega
      · show mapKeys s.store.tasks = (List.range (pcCount wAssigned
          (s.gs.set i { g with pc := Pc.done }))).map _
        rw [show pcCount wAssigned (s.gs.set i { g with pc := Pc.done })
          = pcCount wAssigned s.gs by omega]
        exact h₂
      · show s.store.nextID = ((pcCount wIncremented
          (s.gs.set i { g with pc := Pc.done }) : Nat) : Int) + 1
        rw [show pcCount wIncremented (s.gs.set i { g with pc := Pc.done })
          = pcCount wIncremented s.gs by omega]
        exact h₃
      · intro g'' hg'' hpc''
        rcases List.mem_or_eq_of_mem_set hg'' with hm | he
        · exact h₄ g'' hm hpc''
        · subst he
          cases hpc''
    | done =>
      have hstep : s.step i = s := by simp only [Sys.step, hg, hpc]
      rw [hstep]
      exact ⟨h₁, h₂, h₃, h₄, h₅⟩

theorem sys_init_inv (calls : List CreateCall) : (Sys.init calls).Inv := by
  have hall : ∀ g ∈ (Sys.init calls).gs, g.pc = Pc.lock := by
    intro g hg
    simp only [Sys.init, List.mem_map] at hg
    obtain ⟨c, _, rfl⟩ := hg
    rfl
  have h₁ := pcCount_const wInside Pc.lock _ hall
  have h₂ := pcCount_const wAssigned Pc.lock _ hall
  have h₃ := pcCount_const wIncremented Pc.lock _ hall
  simp only [wInside, wAssigned, wIncremented, Nat.mul_zero] at h₁ h₂ h₃
  refine ⟨?_, ?_, ?_, ?_, ?_⟩
  · rw [h₁]
    rfl
  · rw [h₂]
    rfl
  · rw [h₃]
    rfl
  · intro g hg hpc
    rw [hall g hg] at hpc
    cases hpc
  · intro k task hm
    simp [Sys.init, NewTaskService] at hm

theorem sys_run_append (s : Sys) (sched₁ sched₂ : List Nat) :
    s.run (sched₁ ++ sched₂) = (s.run sched₁).run sched₂ := by
  induction sched₁ generalizing s with
  | nil => rfl
  | cons i sched ih => simp [Sys.run, ih]

theorem sys_run_length (s : Sys) (sched : List Nat) :
    (s.run sched).gs.length = s.gs.length := by
  induction sched generalizing s with
  | nil => rfl
  | cons i sched ih => rw [Sys.run, ih, sys_step_length]

theorem inv_run (s : Sys) (sched : List Nat)
    (hb : (s.gs.length : Int) + 2 < 9223372036854775808) (hinv : s.Inv) :
    (s.run sched).Inv := by
  induction sched generalizing s with
  | nil => exact hinv
  | cons i sched ih =>
    exact ih (s.step i) (by rw [sys_step_length]; exact hb) (inv_step s i hb hinv)

/-- Progress: while a call has not returned, some goroutine can execute a
statement: the one that holds the mutex, or one waiting in `Lock()` when the
mutex is free. -/
theorem exists_enabled (s : Sys) (hinv : s.Inv) (hnd : ¬ s.allDone) :
    ∃ i : Nat, pcCount wLeft (s.step i).gs + 1 = pcCount wLeft s.gs := by
  obtain ⟨h₁, _, _, h₄, _⟩ := hinv
  by_cases hl : s.locked = true
  · simp only [hl, if_true] at h₁
    obtain ⟨i, g, hg, hw⟩ := pcCount_pos wInside s.gs (by omega)
    refine ⟨i, ?_⟩
    cases hpc : g.pc with
    | lock => simp [hpc, wInside] at hw
    | done => simp [hpc, wInside] at hw
    | build =>
      have e := pcCount_set wLeft s.gs i g
        { g with
          pc := Pc.assign
          task := some
            { ID := s.store.nextID
              Title := g.title
              Description := g.description
              Completed := false
              CreatedAt := g.now₁
              UpdatedAt := g.now₂ } } hg
      rw [hpc] at e
      simp only [wLeft] at e
      simp only [Sys.step, hg, hpc]
      omega
    | assign =>
      obtain ⟨task, htask, _⟩ := h₄ g (List.getElem?_mem hg) hpc
      have e := pcCount_set wLeft s.gs i g { g with pc := Pc.incr } hg
      rw [hpc] at e
      simp only [wLeft, htask] at e
      simp only [Sys.step, hg, hpc, htask]
      omega
    | incr =>
      have e := pcCount_set wLeft s.gs i g { g with pc := Pc.unlock } hg
      rw [hpc] at e
      simp only [wLeft] at e
      simp only [Sys.step, hg, hpc]
      omega
    | unlock =>
      have e := pcCount_set wLeft s.gs i g { g with pc := Pc.done } hg
      rw [hpc] at e
      simp only [wLeft] at e
      simp only [Sys.step, hg, hpc]
      omega
  · simp only [hl] at h₁
    simp only [Sys.allDone, not_forall] at hnd
    obtain ⟨g, hg, hpc⟩ := hnd
    obtain ⟨i, hi⟩ := List.getElem?_of_mem hg
    have hle := pcCount_le wInside s.gs i g hi
    have hlock : g.pc = Pc.lock := by
      cases hp : g.pc with
      | lock => rfl
      | done => exact absurd hp hpc
      | build => simp [hp, wInside] at hle h₁; omega
      | assign => simp [hp, wInside] at hle h₁; omega
      | incr => simp [hp, wInside] at hle h₁; omega
      | unlock => simp [hp, wInside] at hle h₁; omega
    refine ⟨i, ?_⟩
    have e := pcCount_set wLeft s.gs i g { g with pc := Pc.build } hi
    rw [hlock] at e
    simp only [wLeft] at e
    simp only [Sys.step, hi, hlock, hl]
    simp only [Bool.false_eq_true, if_false]
    omega

/-- No deadlock: from every state that satisfies the invariant some
schedule brings every call to its return. -/
theorem exists_completion (n : Nat) (s : Sys)
    (hb : (s.gs.length : Int) + 2 < 9223372036854775808) (hinv : s.Inv)
    (hn : pcCount wLeft s.gs = n) : ∃ sched : List Nat, (s.run sched).allDone := by
  induction n generalizing s with
  | zero =>
    refine ⟨[], ?_⟩
    intro g hg
    obtain ⟨i, hi⟩ := List.getElem?_of_mem hg
    have hle := pcCount_le wLeft s.gs i g hi
    rw [hn] at hle
    cases hp : g.pc <;> simp [hp, wLeft] at hle ⊢
  | succ n ih =>
    have hnd : ¬ s.allDone := by
      intro hd
      have := pcCount_const wLeft Pc.done s.gs hd
      simp only [wLeft, Nat.mul_zero] at this
      omega
    obtain ⟨i, hi⟩ := exists_enabled s hinv hnd
    obtain ⟨sched, hs⟩ := ih (s.step i) (by rw [sys_step_length]; exact hb)
      (inv_step s i hb hinv) (by omega)
    exact ⟨i :: sched, hs⟩

/-- C13: ten calls of `CreateTask` issued concurrently on the store of
`NewTaskService`.  Every interleaving of their statements can be continued
until all ten calls have returned, and whenever all ten have returned the
store holds exactly ten records, `GetAllTasks` returns ten tasks, and their
identifiers are pairwise distinct: they are 1 to 10, none lost and none
twice. -/
theorem concurrent_creates (calls : List CreateCall) (hten : calls.length = 10)
    (sched : List Nat) :
    (∃ more : List Nat, ((Sys.init calls).run (sched ++ more)).allDone) ∧
      (((Sys.init calls).run sched).allDone →
        ((Sys.init calls).run sched).store.tasks.length = 10 ∧
          (GetAllTasks ((Sys.init calls).run sched).store).length = 10 ∧
          ((GetAllTasks ((Sys.init calls).run sched).store).map Task.ID).Nodup ∧
          ∀ id : Int, id ∈ (GetAllTasks ((Sys.init calls).run sched).store).map Task.ID ↔
            1 ≤ id ∧ id ≤ 10) := by
  have hlen₀ : (Sys.init calls).gs.length = 10 := by
    simp only [Sys.init, List.length_map, hten]
  have hb₀ : ((Sys.init calls).gs.length : Int) + 2 < 9223372036854775808 := by
    rw [hlen₀]
    decide
  have hinv := inv_run (Sys.init calls) sched hb₀ (sys_init_inv calls)
  have hlen := sys_run_length (Sys.init calls) sched
  rw [hlen₀] at hlen
  constructor
  · obtain ⟨more, hmore⟩ := exists_completion _ ((Sys.init calls).run sched)
      (by rw [hlen]; decide) hinv rfl
    exact ⟨more, by rw [sys_run_append]; exact hmore⟩
  · generalize (Sys.init calls).run sched = s at hinv hlen
    intro hdone
    obtain ⟨_, h₂, _, _, h₅⟩ := hinv
    have hc := pcCount_const wAssigned Pc.done s.gs hdone
    rw [hlen] at hc
    simp only [wAssigned] at hc
    rw [hc] at h₂
    have hnodup : (mapKeys s.store.tasks).Nodup := by
      rw [h₂]
      decide
    have hwf : WF s.store := ⟨hnodup, h₅⟩
    have hids := map_ID_getAllTasks s.store hwf
    have hl : s.store.tasks.length = 10 := by
      rw [← length_mapKeys, h₂]
      rfl
    refine ⟨hl, by rw [GetAllTasks, List.length_map, hl], by rw [hids]; exact hnodup, ?_⟩
    intro id
    rw [hids, h₂]
    simp only [List.mem_map, List.mem_range]
    constructor
    · rintro ⟨i, hi, rfl⟩
      omega
    · intro hid
      exact ⟨(id - 1).toNat, by omega, by omega⟩

set_option maxRecDepth 100000 in
/-- C13 on the ten calls of the test under an interleaving with contention
for the mutex: all ten calls return and the store holds the tasks 1 to 10. -/
theorem concurrent_creates_witness :
    tenCalls.length = 10 ∧ ((Sys.init tenCalls).run tenCallsSchedule).allDone ∧
      ((Sys.init tenCalls).run tenCallsSchedule).store.tasks.length = 10 ∧
      (GetAllTasks ((Sys.init tenCalls).run tenCallsSchedule).store).length = 10 ∧
      ((GetAllTasks ((Sys.init tenCalls).run tenCallsSchedule).store).map Task.ID).Nodup ∧
      ∀ id : Int,
        id ∈ (GetAllTasks ((Sys.init tenCalls).run tenCallsSchedule).store).map Task.ID ↔
          1 ≤ id ∧ id ≤ 10 :=
  ⟨rfl, by decide, (concurrent_creates tenCalls rfl tenCallsSchedule).2 (by decide)⟩

/-! ## The service of values is the service with its heap, read through the pointers -/

theorem mem_view_append (heap : List Task) (task : Task) (m : List (Int × Addr))
    (h : ∀ p ∈ m, p.2 < heap.length) : Mem.view (heap ++ [task]) m = Mem.view heap m := by
  induction m with
  | nil => rfl
  | cons p m ih =>
    have hp := h p (by simp)
    have := ih (fun q hq => h q (List.mem_cons_of_mem _ hq))
    simp only [Mem.view] at this
    simp only [Mem.view, List.filterMap_cons, List.getElem?_append_left hp, this]

theorem mem_view_modifyCell_of_not_mem (f : Task → Task) (heap : List Task) (a : Addr)
    (m : List (Int × Addr)) (h : a ∉ m.map Prod.snd) :
    Mem.view (Mem.modifyCell f heap a) m = Mem.view heap m := by
  induction m with
  | nil => rfl
  | cons p m ih =>
    simp only [List.map_cons, List.mem_cons, not_or] at h
    have := ih h.2
    simp only [Mem.view] at this
    have hne : p.2 ≠ a := fun e => h.1 e.symm
    simp only [Mem.view, List.filterMap_cons, mem_getElem?_modifyCell_ne f heap a p.2 hne,
      this]

theorem mem_view_mapLookup (heap : List Task) (m : List (Int × Addr)) (k : Int)
    (h : ∀ p ∈ m, p.2 < heap.length) :
    mapLookup (Mem.view heap m) k = (Mem.mapLookup m k).bind (fun a => heap[a]?) := by
  induction m with
  | nil => rfl
  | cons p m ih =>
    obtain ⟨k', a'⟩ := p
    have hp : a' < heap.length := h (k', a') (by simp)
    have := ih (fun q hq => h q (List.mem_cons_of_mem _ hq))
    simp only [Mem.view] at this
    obtain ⟨task, htask⟩ : ∃ task, heap[a']? = some task :=
      ⟨heap[a'], List.getElem?_eq_getElem hp⟩
    by_cases hk : k' = k
    · simp [Mem.view, Mem.mapLookup, mapLookup, hk, htask]
    · simp [Mem.view, Mem.mapLookup, mapLookup, hk, htask, this]

theorem mem_view_mapAssign_fresh (heap : List Task) (task : Task) (m : List (Int × Addr))
    (k : Int) (h : ∀ p ∈ m, p.2 < heap.length) :
    Mem.view (heap ++ [task]) (Mem.mapAssign m k heap.length)
      = mapAssign (Mem.view heap m) k task := by
  induction m with
  | nil => simp [Mem.view, Mem.mapAssign, mapAssign]
  | cons p m ih =>
    obtain ⟨k', a'⟩ := p
    have hp : a' < heap.length := h (k', a') (by simp)
    have hm : ∀ q ∈ m, q.2 < heap.length := fun q hq => h q (List.mem_cons_of_mem _ hq)
    have := ih hm
    simp only [Mem.view] at this
    have happ := mem_view_append heap task m hm
    simp only [Mem.view] at happ
    obtain ⟨old, hold⟩ : ∃ old, heap[a']? = some old :=
      ⟨heap[a'], List.getElem?_eq_getElem hp⟩
    by_cases hk : k' = k
    · simp [Mem.view, Mem.mapAssign, mapAssign, hk, hold, happ]
    · simp [Mem.view, Mem.mapAssign, mapAssign, hk, hold, List.getElem?_append_left hp, this]

theorem mem_view_mapDelete (heap : List Task) (m : List (Int × Addr)) (k : Int)
    (h : ∀ p ∈ m, p.2 < heap.length) :
    Mem.view heap (Mem.mapDelete m k) = mapDelete (Mem.view heap m) k := by
  induction m with
  | nil => rfl
  | cons p m ih =>
    obtain ⟨k', a'⟩ := p
    have hp : a' < heap.length := h (k', a') (by simp)
    have := ih (fun q hq => h q (List.mem_cons_of_mem _ hq))
    simp only [Mem.view] at this
    obtain ⟨old, hold⟩ : ∃ old, heap[a']? = some old :=
      ⟨heap[a'], List.getElem?_eq_getElem hp⟩
    by_cases hk : k' = k
    · simp [Mem.view, Mem.mapDelete, mapDelete, hk, hold, this]
    · simp [Mem.view, Mem.mapDelete, mapDelete, hk, hold, this]

theorem mem_view_update (f : Task → Task) (heap : List Task) (m : List (Int × Addr))
    (k : Int) (a : Addr) (old : Task) (h : ∀ p ∈ m, p.2 < heap.length)
    (hn : (m.map Prod.snd).Nodup) (hl : Mem.mapLookup m k = some a)
    (hold : heap[a]? = some old) :
    Mem.view (Mem.modifyCell f heap a) m = mapAssign (Mem.view heap m) k (f old) := by
  induction m with
  | nil => simp [Mem.mapLookup] at hl
  | cons p m ih =>
    obtain ⟨k', a'⟩ := p
    have hp : a' < heap.length := h (k', a') (by simp)
    have hm : ∀ q ∈ m, q.2 < heap.length := fun q hq => h q (List.mem_cons_of_mem _ hq)
    have hn' : a' ∉ m.map Prod.snd ∧ (m.map Prod.snd).Nodup := by simpa using hn
    obtain ⟨old', hold'⟩ : ∃ old', heap[a']? = some old' :=
      ⟨heap[a'], List.getElem?_eq_getElem hp⟩
    by_cases hk : k' = k
    · have ha : a' = a := by simpa [Mem.mapLookup, hk] using hl
      subst ha
      have hrest := mem_view_modifyCell_of_not_mem f heap a' m hn'.1
      simp only [Mem.view] at hrest
      rw [hold] at hold'
      injection hold' with hold'
      subst hold'
      simp [Mem.view, mapAssign, hk, mem_getElem?_modifyCell_self, hold, hrest]
    · have hl' : Mem.mapLookup m k = some a := by simpa [Mem.mapLookup, hk] using hl
      have hmem : a ∈ m.map Prod.snd :=
        List.mem_map.mpr ⟨(k, a), mem_mapLookup_mem m k a hl', rfl⟩
      have hne : a' ≠ a := fun e => hn'.1 (e ▸ hmem)
      have := ih hm hn'.2 hl'
      simp only [Mem.view] at this
      simp [Mem.view, mapAssign, hk, mem_getElem?_modifyCell_ne f heap a a' hne, hold', this]

/-- The service of values is the service with its heap read through the
pointers: each of the five methods, run on the heap and then read, gives the
state and the task the method on values gives. -/
theorem mem_refines (ms : Mem.TaskService) (hwf : Mem.WF ms) (id : Int)
    (title description : String) (completed : Bool) (now now₁ now₂ : Time) :
    (Mem.CreateTask ms title description now₁ now₂).1.toValue
        = (CreateTask ms.toValue title description now₁ now₂).1 ∧
      Mem.load (Mem.CreateTask ms title description now₁ now₂).1
          (Mem.CreateTask ms title description now₁ now₂).2
        = some (CreateTask ms.toValue title description now₁ now₂).2 ∧
      Mem.deref ms (Mem.GetTask ms id) = GetTask ms.toValue id ∧
      (Mem.GetAllTasks ms).filterMap (Mem.load ms) = GetAllTasks ms.toValue ∧
      (Mem.UpdateTask ms id title description completed now).1.toValue
        = (UpdateTask ms.toValue id title description completed now).1 ∧
      Mem.deref (Mem.UpdateTask ms id title description completed now).1
          (Mem.UpdateTask ms id title description completed now).2
        = (UpdateTask ms.toValue id title description completed now).2 ∧
      (Mem.DeleteTask ms id).1.toValue = (DeleteTask ms.toValue id).1 ∧
      (Mem.DeleteTask ms id).2 = (DeleteTask ms.toValue id).2 := by
  obtain ⟨hv, hn⟩ := hwf
  have hlook := mem_view_mapLookup ms.heap ms.tasks id hv
  refine ⟨?_, ?_, ?_, ?_, ?_, ?_, ?_, ?_⟩
  · simp only [Mem.CreateTask, CreateTask, Mem.TaskService.toValue,
      mem_view_mapAssign_fresh _ _ _ _ hv]
  · simp [Mem.CreateTask, CreateTask, Mem.load, Mem.TaskService.toValue]
  · simp only [Mem.GetTask, GetTask, Mem.TaskService.toValue, hlook]
    cases hl : Mem.mapLookup ms.tasks id with
    | none => rfl
    | some a =>
      have ha := hv (id, a) (mem_mapLookup_mem _ _ _ hl)
      simp [Mem.deref, Mem.load, List.getElem?_eq_getElem ha]
  · simp only [Mem.GetAllTasks, GetAllTasks, Mem.TaskService.toValue, Mem.view,
      List.filterMap_map, List.map_filterMap]
    apply List.filterMap_congr
    intro p _
    simp only [Function.comp, Mem.load]
    cases ms.heap[p.2]? <;> rfl
  · simp only [Mem.UpdateTask, UpdateTask, Mem.TaskService.toValue, hlook]
    cases hl : Mem.mapLookup ms.tasks id with
    | none => rfl
    | some a =>
      have ha := hv (id, a) (mem_mapLookup_mem _ _ _ hl)
      have hold : ms.heap[a]? = some ms.heap[a] := List.getElem?_eq_getElem ha
      simp only [Option.some_bind, hold]
      rw [mem_view_update _ ms.heap ms.tasks id a ms.heap[a] hv hn hl hold]
  · simp only [Mem.UpdateTask, UpdateTask, Mem.TaskService.toValue, hlook]
    cases hl : Mem.mapLookup ms.tasks id with
    | none => rfl
    | some a =>
      have ha := hv (id, a) (mem_mapLookup_mem _ _ _ hl)
      have hold : ms.heap[a]? = some ms.heap[a] := List.getElem?_eq_getElem ha
      simp only [Option.some_bind, hold, Mem.deref, Mem.load, mem_getElem?_modifyCell_self,
        Option.map_some']
  · simp only [Mem.DeleteTask, DeleteTask, Mem.TaskService.toValue, hlook]
    cases hl : Mem.mapLookup ms.tasks id with
    | none => rfl
    | some a =>
      have ha := hv (id, a) (mem_mapLookup_mem _ _ _ hl)
      simp only [Option.some_bind, List.getElem?_eq_getElem ha, mem_view_mapDelete _ _ _ hv]
  · simp only [Mem.DeleteTask, DeleteTask, Mem.TaskService.toValue, hlook]
    cases hl : Mem.mapLookup ms.tasks id with
    | none => rfl
    | some a =>
      have ha := hv (id, a) (mem_mapLookup_mem _ _ _ hl)
      simp only [Option.some_bind, List.getElem?_eq_getElem ha]

theorem mem_mem_mapAssign {m : List (Int × Addr)} {k : Int} {a : Addr} {p : Int × Addr}
    (h : p ∈ Mem.mapAssign m k a) : p = (k, a) ∨ p ∈ m := by
  induction m with
  | nil => simpa [Mem.mapAssign] using h
  | cons q m ih =>
    obtain ⟨k', a'⟩ := q
    by_cases hk : k' = k
    · simp only [Mem.mapAssign, hk, if_true, List.mem_cons] at h
      rcases h with h | h
      · exact Or.inl h
      · exact Or.inr (List.mem_cons_of_mem _ h)
    · simp only [Mem.mapAssign, hk, if_false, List.mem_cons] at h
      rcases h with h | h
      · exact Or.inr (by simp [h])
      · rcases ih h with h | h
        · exact Or.inl h
        · exact Or.inr (List.mem_cons_of_mem _ h)

theorem mem_nodup_mapAssign (m : List (Int × Addr)) (k : Int) (a : Addr)
    (hn : (m.map Prod.snd).Nodup) (ha : a ∉ m.map Prod.snd) :
    ((Mem.mapAssign m k a).map Prod.snd).Nodup := by
  induction m with
  | nil => simp [Mem.mapAssign]
  | cons q m ih =>
    obtain ⟨k', a'⟩ := q
    have hn' : a' ∉ m.map Prod.snd ∧ (m.map Prod.snd).Nodup := by simpa using hn
    have ha' : a ≠ a' ∧ a ∉ m.map Prod.snd := by simpa using ha
    by_cases hk : k' = k
    · simp only [Mem.mapAssign, hk, if_true, List.map_cons, List.nodup_cons]
      exact ⟨ha'.2, hn'.2⟩
    · simp only [Mem.mapAssign, hk, if_false, List.map_cons, List.nodup_cons]
      refine ⟨?_, ih hn'.2 ha'.2⟩
      intro hm
      obtain ⟨p, hp, hpa⟩ := List.mem_map.mp hm
      rcases mem_mem_mapAssign hp with hp | hp
      · rw [hp] at hpa
        exact ha'.1 hpa
      · exact hn'.1 (List.mem_map.mpr ⟨p, hp, hpa⟩)

theorem mem_mapDelete_sublist (m : List (Int × Addr)) (k : Int) :
    (Mem.mapDelete m k).Sublist m := by
  induction m with
  | nil => exact List.Sublist.refl _
  | cons q m ih =>
    obtain ⟨k', a'⟩ := q
    by_cases hk : k' = k
    · simp only [Mem.mapDelete, hk, if_true]
      exact List.Sublist.cons _ ih
    · simp only [Mem.mapDelete, hk, if_false]
      exact List.Sublist.cons₂ _ ih

/-- The store of `NewTaskService` has well-formed pointers and the three
methods that write keep them so; hence `mem_refines` applies in every state
the methods reach. -/
theorem mem_wf_preserved (ms : Mem.TaskService) (hwf : Mem.WF ms) (id : Int)
    (title description : String) (completed : Bool) (now now₁ now₂ : Time) :
    Mem.WF Mem.NewTaskService ∧
      Mem.WF (Mem.CreateTask ms title description now₁ now₂).1 ∧
      Mem.WF (Mem.UpdateTask ms id title description completed now).1 ∧
      Mem.WF (Mem.DeleteTask ms id).1 := by
  obtain ⟨hv, hn⟩ := hwf
  refine ⟨?_, ?_, ?_, ?_⟩
  · simp [Mem.WF, Mem.NewTaskService]
  · constructor
    · intro p hp
      simp only [Mem.CreateTask, List.length_append, List.length_singleton] at hp ⊢
      rcases mem_mem_mapAssign hp with hp | hp
      · rw [hp]
        exact Nat.lt_succ_self _
      · exact Nat.lt_succ_of_lt (hv p hp)
    · simp only [Mem.CreateTask]
      apply mem_nodup_mapAssign _ _ _ hn
      intro hm
      obtain ⟨p, hp, hpa⟩ := List.mem_map.mp hm
      have hlt := hv p hp
      rw [hpa] at hlt
      exact Nat.lt_irrefl _ hlt
  · unfold Mem.UpdateTask
    cases hl : Mem.mapLookup ms.tasks id with
    | none => exact ⟨hv, hn⟩
    | some a =>
      refine ⟨?_, hn⟩
      intro p hp
      rw [mem_length_modifyCell]
      exact hv p hp
  · unfold Mem.DeleteTask
    cases hl : Mem.mapLookup ms.tasks id with
    | none => exact ⟨hv, hn⟩
    | some a =>
      constructor
      · intro p hp
        exact hv p ((mem_mapDelete_sublist ms.tasks id).subset hp)
      · exact hn.sublist ((mem_mapDelete_sublist ms.tasks id).map Prod.snd)

end ToDo
